import Mathlib

/-!
# A verification development for the forkargs dispatcher

This file gives a shallow embedding of the core of `forkargs.c` (final
evolution): the character-escaping function `escape_str`, the slot
specification grammar of `setup_slots`, the reachability probe
`test_slots`, the buffered line reader `read_line` / `read_line_offset`,
the signal handlers `interrupt` / `really_interrupt`, and the
admission/dispatch/reap loop of `main`, together with proofs of the
scheduling invariants, the dispatch priority rule, the error-admission
policy, and the exit-status discipline.

Strings are modelled as `List Char` (the C code works byte by byte),
machine integers as `Nat` (all the counters involved are small and
non-negative in every reachable state), and the nondeterminism of
`wait`/`fork`/signals as explicit oracle ("schedule") arguments.  The
environment of a run (reachability of remote hosts, contents of the
input stream, order in which children terminate, arrival of SIGINT at
the loop's checkpoints) is universally quantified in the theorems.
-/

set_option maxHeartbeats 1000000
set_option maxRecDepth 4000

/-! ## Character classes (ctype.h, "C" locale, as used by the source) -/

/-- C `isspace`. -/
def isSpaceC (c : Char) : Bool :=
  c = ' ' || c = '\t' || c = '\n' || c = Char.ofNat 11 || c = Char.ofNat 12 || c = '\r'

/-- C `isdigit`. -/
def isDigitC (c : Char) : Bool :=
  '0' ≤ c && c ≤ '9'

/-- C `isalnum`. -/
def isAlnumC (c : Char) : Bool :=
  isDigitC c || ('a' ≤ c && c ≤ 'z') || ('A' ≤ c && c ≤ 'Z')

/-- The hostname character set accepted by `setup_slots`:
alphanumeric plus `-`, `.`, `@`. -/
def isHostChar (c : Char) : Bool :=
  isAlnumC c || c = '-' || c = '.' || c = '@'

/-- The safe set of `escape_str`: alphanumeric plus `_`, `-`, `/`, `.`. -/
def isSafeChar (c : Char) : Bool :=
  isAlnumC c || c = '_' || c = '-' || c = '/' || c = '.'

/-- Numeric value of a digit character. -/
def digVal (c : Char) : Nat := c.toNat - 48

/-- C `atol` restricted to the digit strings the parser feeds it. -/
def atol (ds : List Char) : Nat :=
  ds.foldl (fun n c => n * 10 + digVal c) 0

/-- Drop leading `isspace` characters: the `while (*c && isspace(*c)) c++`
idiom of `setup_slots`. -/
def skipSpaces (c : List Char) : List Char :=
  c.dropWhile isSpaceC

/-! ## `escape_str` (forkargs.c lines 85-106)

For every character of the input: characters in the safe set are copied
unchanged, every other character is emitted preceded by a backslash. -/

def escape_str : List Char → List Char
  | [] => []
  | c :: rest =>
    if isSafeChar c then c :: escape_str rest
    else '\\' :: c :: escape_str rest

/-! ## A POSIX-shell word evaluator (the remote side's re-parse)

The remote host re-parses the command line through its shell.  For the
fragment of shell syntax that `escape_str` output can contain, the
relevant rules are: an unquoted backslash escapes the following
character (except a newline, where backslash-newline is removed as a
line continuation), and unquoted IFS whitespace separates words. -/

/-- Unquoted IFS whitespace. -/
def isIFS (c : Char) : Bool :=
  c = ' ' || c = '\t' || c = '\n'

/-- Close the word accumulator: between words nothing is emitted, an
open word is emitted. -/
def flushWord : Option (List Char) → List (List Char)
  | none => []
  | some w => [w]

/-- Append a literal character to the (possibly not yet started) word. -/
def pushChar (acc : Option (List Char)) (c : Char) : Option (List Char) :=
  some (acc.getD [] ++ [c])

/-- Split a character stream into shell words, handling backslash
escapes and IFS separation. -/
def shWordsAux : Option (List Char) → List Char → List (List Char)
  | acc, [] => flushWord acc
  | acc, c :: rest =>
    if c = '\\' then
      match rest with
      | [] => flushWord (pushChar acc '\\')
      | d :: rest' =>
        if d = '\n' then shWordsAux acc rest'
        else shWordsAux (pushChar acc d) rest'
    else if isIFS c then flushWord acc ++ shWordsAux none rest
    else shWordsAux (pushChar acc c) rest

/-- The words a POSIX shell obtains from the given character stream. -/
def shWords (s : List Char) : List (List Char) :=
  shWordsAux none s

/-! ## Slot descriptors and the slot table -/

/-- One execution slot, as in `struct Slot`: the `hostname` field is
`none` for a local slot, `cpid` is `none` for `-1` (no running child),
`arg` holds the line currently being processed. -/
structure MSlot where
  hostname : Option (List Char)
  cpid : Option Nat
  arg : Option (List Char)
  faulted : Bool
  remote_slot : Bool
  working_dir : Option (List Char)
  args : List (List Char)
deriving DecidableEq

/-- The string `"localhost"`. -/
def localhostStr : List Char :=
  ['l', 'o', 'c', 'a', 'l', 'h', 'o', 's', 't']

/-- The string `"ssh"`. -/
def sshStr : List Char := ['s', 's', 'h']

/-- The string `"cd"`. -/
def cdStr : List Char := ['c', 'd']

/-- `working_dir_str` (lines 132-145): a local working directory
beginning with `~` is expanded against `$HOME`; remote ones are kept
literal. -/
def working_dir_str (home : List Char) (s : List Char) (remote : Bool) : List Char :=
  match s with
  | '~' :: rest =>
    if remote then s
    else
      home ++ (match rest with
               | [] => []
               | r :: _ => if r = '/' then rest else '/' :: rest)
  | _ => s

/-- A freshly parsed local slot running the given command. -/
def localSlot (cmdArgs : List (List Char)) : MSlot :=
  { hostname := none, cpid := none, arg := none, faulted := false,
    remote_slot := false, working_dir := none, args := cmdArgs }

/-- The `num_slots` identical slot records emitted for one entry of the
slots string (lines 236-281): a remote slot gets the pre-built
`ssh host [cd wd ;] escaped-args` argument vector, a local slot shares
the plain command arguments. -/
def mkSlot (home : List Char) (cmdArgs : List (List Char)) (n : Nat)
    (hname : List Char) (wdRaw : List Char) : List MSlot :=
  let host : Option (List Char) :=
    if hname = localhostStr ∨ hname = ['-'] then none else some hname
  let wd : Option (List Char) :=
    if wdRaw = [] then none else some (working_dir_str home wdRaw host.isSome)
  let sargs : List (List Char) :=
    match host with
    | some h =>
      [sshStr, h] ++
        (match wd with
         | some w => [cdStr, escape_str w, [';']]
         | none => []) ++
        cmdArgs.map escape_str
    | none => cmdArgs
  List.replicate n
    { hostname := host, cpid := none, arg := none, faulted := false,
      remote_slot := host.isSome, working_dir := wd, args := sargs }

/-! ## The slot-specification grammar of `setup_slots` (lines 169-299) -/

/-- The two fatal diagnostics of the slots-string grammar:
`"Bad hostname"` calls `exit(2)`, `"Bad slot description"` calls
`exit(1)`. -/
inductive PErr where
  | badHostname
  | badSlotDesc
deriving DecidableEq

/-- The exit status of each parse diagnostic in the source. -/
def pErrCode : PErr → Nat
  | .badHostname => 2
  | .badSlotDesc => 1

/-- The leading `count '*'` / bare-integer part of an entry
(lines 184-207): a digit run followed (after spaces) by `*` gives
`count` and skips past the `*`; a digit run followed by end of string or
a comma gives `count` and stops right there; anything else leaves the
cursor untouched with count 1 (the digits are then read as a
hostname). -/
def numPhase (c : List Char) : Nat × List Char :=
  match c with
  | [] => (1, c)
  | d :: _ =>
    if isDigitC d then
      let num := c.takeWhile isDigitC
      let c2s := skipSpaces (c.dropWhile isDigitC)
      match c2s with
      | '*' :: c3 => (atol num, skipSpaces c3)
      | [] => (atol num, [])
      | ch :: _ => if ch = ',' then (atol num, c2s) else (1, c)
    else (1, c)

/-- The hostname part of an entry (lines 209-223): entered only when
the cursor is not at end, `,` or `:`; collects hostname characters; a
zero-length collection is the fatal `"Bad hostname"`. -/
def hostPhase (c : List Char) : Except PErr (List Char × List Char) :=
  match c with
  | [] => .ok (localhostStr, c)
  | ch :: _ =>
    if ch = ',' ∨ ch = ':' then .ok (localhostStr, c)
    else
      let h := c.takeWhile isHostChar
      if h = [] then .error .badHostname
      else .ok (h, c.dropWhile isHostChar)

/-- The optional `:workdir` part of an entry (lines 225-233). -/
def wdPhase (c : List Char) : List Char × List Char :=
  match c with
  | ':' :: c' => (c'.takeWhile (· ≠ ','), c'.dropWhile (· ≠ ','))
  | _ => ([], c)

/-- The outcome of parsing one entry: end of string reached, more
entries follow after a comma, or a fatal diagnostic. -/
inductive EntryOut where
  | done (slots : List MSlot)
  | more (slots : List MSlot) (rest : List Char)
  | err (e : PErr)
deriving DecidableEq

/-- One iteration of the `while (*c)` loop of `setup_slots`: leading
spaces, count, hostname, working directory, slot emission, then either
end of string (break), a comma with more text (continue), or the fatal
`"Bad slot description"` (also hit on a trailing comma). -/
def parseEntry (home : List Char) (cmdArgs : List (List Char)) (c : List Char) : EntryOut :=
  let c0 := skipSpaces c
  let nc := numPhase c0
  match hostPhase nc.2 with
  | .error e => .err e
  | .ok hr =>
    let wr := wdPhase hr.2
    let emitted := mkSlot home cmdArgs nc.1 hr.1 wr.1
    match skipSpaces wr.2 with
    | [] => .done emitted
    | ch :: c5 =>
      if ch = ',' then
        if c5 = [] then .err .badSlotDesc else .more emitted c5
      else .err .badSlotDesc

/-- The `while (*c)` loop of `setup_slots`.  The fuel argument is a
recursion bound only: every `more` step consumes at least the separating
comma, so `length + 1` fuel (as supplied by `setup_slots`) never runs
out and the fuel-exhaustion branch is unreachable. -/
def parseLoop (home : List Char) (cmdArgs : List (List Char)) :
    Nat → List Char → Except PErr (List MSlot)
  | 0, _ => .error .badSlotDesc
  | _ + 1, [] => .ok []
  | fuel + 1, c =>
    match parseEntry home cmdArgs c with
    | .err e => .error e
    | .done s => .ok s
    | .more s rest =>
      match parseLoop home cmdArgs fuel rest with
      | .error e => .error e
      | .ok s' => .ok (s ++ s')

/-- `setup_slots` (lines 148-299): with no slots string, the table
defaults to one slot per processing unit; otherwise the slots string is
parsed.  A parse diagnostic terminates the process before anything else
happens. -/
def setup_slots (home : List Char) (cmdArgs : List (List Char))
    (spec : Option (List Char)) (ncpus : Nat) : Except PErr (List MSlot) :=
  match spec with
  | none => .ok (List.replicate ncpus (localSlot cmdArgs))
  | some s => parseLoop home cmdArgs (s.length + 1) s

/-! ## The reachability probe `test_slots` (lines 342-415) -/

/-- The scan of `test_slots` over the table, carrying the
already-processed prefix for the by-hostname deduplication: a remote
slot whose hostname was already probed inherits that result, a fresh
hostname is probed (`ssh host true`; the oracle `reach` decides the
probe's exit status) and marked faulted on failure. -/
def test_slots_go (reach : List Char → Bool) (done : List MSlot) :
    List MSlot → List MSlot
  | [] => done
  | s :: rest =>
    match s.hostname with
    | none => test_slots_go reach (done ++ [s]) rest
    | some h =>
      if h = localhostStr then test_slots_go reach (done ++ [s]) rest
      else
        match done.find? (fun t => t.hostname = some h) with
        | some t => test_slots_go reach (done ++ [{ s with faulted := t.faulted }]) rest
        | none =>
          if reach h then test_slots_go reach (done ++ [s]) rest
          else test_slots_go reach (done ++ [{ s with faulted := true }]) rest

/-- `test_slots`, with the reachability of each host given by the
oracle `reach`. -/
def test_slots (reach : List Char → Bool) (slots : List MSlot) : List MSlot :=
  test_slots_go reach [] slots

/-! ## `read_line` / `read_line_offset` (lines 417-451) -/

/-- stdio's `BUFSIZ` (glibc value; only "larger than a line chunk"
matters). -/
def BUFSIZ : Nat := 8192

/-- A C stdio input stream: remaining bytes plus the end-of-file
indicator. -/
structure CStream where
  data : List Char
  eof : Bool
deriving DecidableEq

/-- The crash of `read_line_offset`: `strncpy` through the NULL pointer
returned by the recursive call. -/
inductive Crash where
  | nullDeref
deriving DecidableEq

/-- The chunk `fgets(buffer, n+1, in)` stores: at most `n` characters,
stopping after a newline. -/
def fgetsChunk : Nat → List Char → List Char
  | 0, _ => []
  | _, [] => []
  | n + 1, c :: rest => if c = '\n' then [c] else c :: fgetsChunk n rest

/-- `fgets(buffer, BUFSIZ, in)`: `none` models a NULL return (at end of
file, setting the end-of-file indicator); otherwise the stored chunk and
the advanced stream.  The end-of-file indicator is set when the read
stopped by exhausting the stream (not by a newline and not by the size
limit). -/
def fgetsModel (st : CStream) : Option (List Char) × CStream :=
  if st.eof then (none, st)
  else
    match st.data with
    | [] => (none, { st with eof := true })
    | _ =>
      let chunk := fgetsChunk (BUFSIZ - 1) st.data
      let rest := st.data.drop chunk.length
      let hitEof : Bool :=
        rest.isEmpty && !(chunk.getLast? = some '\n') && chunk.length < BUFSIZ - 1
      (some chunk, { data := rest, eof := st.eof || hitEof })

/-- `read_line_offset` (lines 417-444): reads a chunk; with no newline
in it, recurses for the rest of the line; then copies the chunk into the
result buffer at its offset.  When the recursive call returns NULL (end
of stream before a newline), that copy writes through a NULL pointer:
the `.error .nullDeref` branch.  The fuel argument is a recursion bound
only; `read_line` supplies enough for any stream. -/
def read_line_offset : Nat → CStream → Nat → Except Crash (Option (List Char) × CStream)
  | 0, st, _ => .ok (none, st)
  | fuel + 1, st, offset =>
    if st.eof then .ok (none, st)
    else
      match fgetsModel st with
      | (none, st') => .ok (none, st')
      | (some buffer, st') =>
        if buffer.contains '\n' then .ok (some buffer, st')
        else
          match read_line_offset fuel st' (offset + buffer.length) with
          | .error e => .error e
          | .ok (none, _) => .error .nullDeref
          | .ok (some tail, st2) => .ok (some (buffer ++ tail), st2)

/-- `read_line` (lines 447-451). -/
def read_line (st : CStream) : Except Crash (Option (List Char) × CStream) :=
  read_line_offset (st.data.length + 1) st 0

/-! ## The dispatch loop of `main` (lines 563-811) -/

/-- A `wait` status: whether the child exited normally (`WIFEXITED`) and
its `WEXITSTATUS`. -/
structure Status where
  exited : Bool
  code : Nat
deriving DecidableEq

/-- The `WIFEXITED(status) && WEXITSTATUS(status) != 0` test that sets
`error_encountered`. -/
def statusFail (w : Status) : Bool :=
  w.exited && w.code ≠ 0

/-- The mutable state of the dispatch loop: the slot table, `n_active`,
`error_encountered`, the `interrupted` flag set by the SIGINT handler,
and a counter producing fresh pids for `fork`. -/
structure LoopSt where
  slots : List MSlot
  nActive : Nat
  errorEncountered : Bool
  interrupted : Bool
  nextPid : Nat
deriving DecidableEq

/-- The fatal internal errors of the loop, all `exit(1)`: `wait`
failing, a terminated pid missing from the slot table, and the
free-slot scan finding nothing. -/
inductive Fatal where
  | waitFail
  | unknownChild
  | noFreeSlot
deriving DecidableEq

/-- Observable events of a run. -/
inductive Ev where
  | read (line : List Char)
  | intr
  | launch (i : Nat) (line : List Char) (pre : LoopSt)
  | reap (i : Nat) (pid : Nat) (w : Status)
  | reapDrainEv (pid : Nat) (w : Status)
deriving DecidableEq

/-- The environment's choices for one loop iteration: whether SIGINT
arrives before the condition is evaluated, whether it arrives between
`read_line` and the re-check of `interrupted`, and what `wait` returns
if the iteration blocks for a free slot. -/
structure IterOrc where
  i1 : Bool
  i2 : Bool
  reap : Option (Nat × Status)
deriving DecidableEq

/-- Next iteration's oracle (quiescent when the schedule is over). -/
def orcHead : List IterOrc → IterOrc × List IterOrc
  | [] => (⟨false, false, none⟩, [])
  | o :: os => (o, os)

/-- Update position `i` of a slot table. -/
def updIdx (f : MSlot → MSlot) : List MSlot → Nat → List MSlot
  | [], _ => []
  | s :: rest, 0 => f s :: rest
  | s :: rest, n + 1 => s :: updIdx f rest n

/-- The free-slot scan (lines 673-676): index of the first slot with no
running child and not faulted. -/
def findFreeSlot : List MSlot → Option Nat
  | [] => none
  | s :: rest =>
    if s.cpid = none ∧ s.faulted = false then some 0
    else (findFreeSlot rest).map (· + 1)

/-- The slot-table scan locating a terminated pid (lines 654-662). -/
def findSlotPid (pid : Nat) : List MSlot → Option Nat
  | [] => none
  | s :: rest =>
    if s.cpid = some pid then some 0
    else (findSlotPid pid rest).map (· + 1)

/-- Releasing a slot: `cpid = -1`, the argument freed. -/
def clearSlotFn (s : MSlot) : MSlot :=
  { s with cpid := none, arg := none }

/-- Occupying a slot with a newly forked child. -/
def mkBusy (pid : Nat) (line : List Char) (s : MSlot) : MSlot :=
  { s with cpid := some pid, arg := some line }

/-- The in-loop reap (lines 633-671): `wait` returned `(pid, w)`; set
`error_encountered` on a nonzero exit, locate the slot (a miss is the
fatal `"cannot find child"`), release it, decrement `n_active`.  Returns
the released slot's index for the trace. -/
def reapMain (st : LoopSt) (pid : Nat) (w : Status) : Except Fatal (LoopSt × Nat) :=
  match findSlotPid pid st.slots with
  | none => .error .unknownChild
  | some i =>
    .ok ({ st with
            errorEncountered := st.errorEncountered || statusFail w,
            slots := updIdx clearSlotFn st.slots i,
            nActive := st.nActive - 1 }, i)

/-- The dispatch step (lines 673-701): scan for the first free
non-faulted slot (a miss is the fatal `"cannot find a free slot"`),
fork, record the child pid and the line, increment `n_active`. -/
def launchLine (st : LoopSt) (line : List Char) : Except Fatal (LoopSt × Nat) :=
  match findFreeSlot st.slots with
  | none => .error .noFreeSlot
  | some i =>
    .ok ({ st with
            slots := updIdx (mkBusy st.nextPid line) st.slots i,
            nActive := st.nActive + 1,
            nextPid := st.nextPid + 1 }, i)

/-- How a loop phase ended: the loop condition became false, a fatal
internal error, or the schedule provided no child termination for a
blocking `wait` (the process would block forever). -/
inductive Term where
  | ok
  | fatal (f : Fatal)
  | stuck
deriving DecidableEq

/-- Result of running a loop phase: final state, event trace, the state
snapshots after each mutation, and how the phase ended. -/
structure LoopOut where
  final : LoopSt
  trace : List Ev
  snaps : List LoopSt
  term : Term
deriving DecidableEq

/-- One iteration of the `while` loop of `main` (lines 613-771),
without the recursion.  The loop condition is `!interrupted &&
(!error_encountered || continue_on_error) && read_line && !interrupted`;
the body waits for a free slot when `n_active + n_faulted >= n_slots`
(reaping exactly one child) and then dispatches the line to the first
free slot.  `.inl` is "the loop is over" (with its result), `.inr`
carries the state, events and snapshots into the next iteration. -/
def iterStep (k : Bool) (nS nF : Nat) (line : List Char) (st : LoopSt)
    (o : IterOrc) : LoopOut ⊕ (LoopSt × List Ev × List LoopSt) :=
  let st1 := if o.i1 then { st with interrupted := true } else st
  let evs1 : List Ev := if o.i1 then [.intr] else []
  let snaps1 : List LoopSt := if o.i1 then [st1] else []
  if st1.interrupted then .inl ⟨st1, evs1, snaps1, .ok⟩
  else if st1.errorEncountered && !k then .inl ⟨st1, evs1, snaps1, .ok⟩
  else
    let st2 := if o.i2 then { st1 with interrupted := true } else st1
    let evs2 : List Ev := (evs1 ++ [.read line]) ++ (if o.i2 then [.intr] else [])
    let snaps2 := snaps1 ++ (if o.i2 then [st2] else [])
    if st2.interrupted then .inl ⟨st2, evs2, snaps2, .ok⟩
    else if st2.nActive + nF ≥ nS then
      match o.reap with
      | none => .inl ⟨st2, evs2, snaps2, .stuck⟩
      | some pw =>
        match reapMain st2 pw.1 pw.2 with
        | .error f => .inl ⟨st2, evs2, snaps2, .fatal f⟩
        | .ok si =>
          match launchLine si.1 line with
          | .error f =>
            .inl ⟨si.1, evs2 ++ [.reap si.2 pw.1 pw.2], snaps2 ++ [si.1], .fatal f⟩
          | .ok st4i =>
            .inr (st4i.1,
                  evs2 ++ [.reap si.2 pw.1 pw.2] ++ [.launch st4i.2 line si.1],
                  snaps2 ++ [si.1] ++ [st4i.1])
    else
      match launchLine st2 line with
      | .error f => .inl ⟨st2, evs2, snaps2, .fatal f⟩
      | .ok st4i =>
        .inr (st4i.1, evs2 ++ [.launch st4i.2 line st2], snaps2 ++ [st4i.1])

/-- The `while` loop of `main`: iterate `iterStep` over the input
lines; at end of input, `read_line` returns NULL after the usual
condition checks, ending the loop. -/
def mainLoop (k : Bool) (nS nF : Nat) :
    List (List Char) → LoopSt → List IterOrc → LoopOut
  | [], st, orcs =>
    let o := (orcHead orcs).1
    let st1 := if o.i1 then { st with interrupted := true } else st
    ⟨st1, if o.i1 then [.intr] else [], if o.i1 then [st1] else [], .ok⟩
  | line :: input2, st, orcs =>
    match iterStep k nS nF line st (orcHead orcs).1 with
    | .inl out => out
    | .inr r =>
      let rest := mainLoop k nS nF input2 r.1 (orcHead orcs).2
      ⟨rest.final, r.2.1 ++ rest.trace, r.2.2 ++ rest.snaps, rest.term⟩

/-- One iteration of the final drain loop (lines 777-808): `wait`
returned `(pid, w)`; decrement `n_active`, set `error_encountered` on a
nonzero exit, release every slot recording that pid (without a trace
sink the scan has no early exit). -/
def reapDrain (st : LoopSt) (pid : Nat) (w : Status) : LoopSt :=
  { st with
    nActive := st.nActive - 1,
    errorEncountered := st.errorEncountered || statusFail w,
    slots := st.slots.map (fun s => if s.cpid = some pid then clearSlotFn s else s) }

/-- The `while (n_active)` drain loop (lines 776-808), consuming the
schedule's remaining child terminations. -/
def drainLoop : List (Nat × Status) → LoopSt → LoopOut
  | evs, st =>
    match st.nActive with
    | 0 => ⟨st, [], [], .ok⟩
    | _ + 1 =>
      match evs with
      | [] => ⟨st, [], [], .stuck⟩
      | pw :: evs' =>
        let st' := reapDrain st pw.1 pw.2
        let out := drainLoop evs' st'
        ⟨out.final, .reapDrainEv pw.1 pw.2 :: out.trace, st' :: out.snaps, out.term⟩

/-- A drain schedule is valid for a state when each `wait` result names
exactly one slot's running child, as `wait` does in reality. -/
def drainValid : List (Nat × Status) → LoopSt → Bool
  | [], _ => true
  | pw :: evs2, st =>
    match st.nActive with
    | 0 => true
    | _ + 1 =>
      decide (st.slots.countP (fun s => decide (s.cpid = some pw.1)) = 1) &&
        drainValid evs2 (reapDrain st pw.1 pw.2)

/-- `really_interrupt` (lines 69-76): the pids that receive the
redistributed SIGINT — exactly every slot with a running child. -/
def really_interrupt (slots : List MSlot) : List Nat :=
  slots.filterMap (fun s => s.cpid)

/-! ## The whole program (`main`, lines 563-811) -/

/-- The configuration surface relevant to the core: `-k`
(`continue_on_error`) and `-n` (`skip_slot_test`). -/
structure Config where
  continue_on_error : Bool
  skip_slot_test : Bool
deriving DecidableEq

/-- The environment's schedule for a whole run: per-iteration oracles
for the main loop and the `wait` results of the drain loop. -/
structure Sched where
  iters : List IterOrc
  drain : List (Nat × Status)
deriving DecidableEq

/-- How the process ended. -/
inductive Outcome where
  | success
  | jobFailure
  | fatalErr (f : Fatal)
  | stuckRun
  | parseExit (e : PErr)
  | procLimit
deriving DecidableEq

/-- The exit status of each outcome in the source (`EXIT_SUCCESS` and
`EXIT_FAILURE` are 0 and 1; the fatal internal errors all `exit(1)`;
`"Bad process limit"` is `exit(2)`); a stuck run never exits. -/
def exitCodeOf : Outcome → Option Nat
  | .success => some 0
  | .jobFailure => some 1
  | .fatalErr _ => some 1
  | .stuckRun => none
  | .parseExit e => some (pErrCode e)
  | .procLimit => some 2

/-- Result of one run: the outcome, the event trace, the state
snapshots (initial state and after every mutation), the slot table as
it stood after the probe phase, and the final loop state (absent when
the process exits before the loop). -/
structure ProgOut where
  outcome : Outcome
  trace : List Ev
  snaps : List LoopSt
  table : List MSlot
  finalSt : Option LoopSt
deriving DecidableEq

/-- Number of Busy slots (slots with a running child). -/
def busyCount (slots : List MSlot) : Nat :=
  slots.countP (fun s => s.cpid.isSome)

/-- Number of Faulted slots. -/
def faultedCount (slots : List MSlot) : Nat :=
  slots.countP (fun s => s.faulted)

/-- The part of `main` after `setup_slots` and `test_slots`: the
faulted-slot count, the `"Bad process limit"` guard, the dispatch loop
and the drain loop, and the final exit status (`EXIT_FAILURE` exactly
when `error_encountered` was set). -/
def runAfterSetup (k : Bool) (slots1 : List MSlot)
    (input : List (List Char)) (sched : Sched) : ProgOut :=
  if slots1.length = 0 then ⟨.procLimit, [], [], slots1, none⟩
  else
    let nF := faultedCount slots1
    let nS := slots1.length
    let st0 : LoopSt := ⟨slots1, 0, false, false, 1⟩
    let m := mainLoop k nS nF input st0 sched.iters
    match m.term with
    | .fatal f => ⟨.fatalErr f, m.trace, st0 :: m.snaps, slots1, some m.final⟩
    | .stuck => ⟨.stuckRun, m.trace, st0 :: m.snaps, slots1, some m.final⟩
    | .ok =>
      let d := drainLoop sched.drain m.final
      match d.term with
      | .stuck =>
        ⟨.stuckRun, m.trace ++ d.trace, st0 :: (m.snaps ++ d.snaps), slots1,
         some d.final⟩
      | _ =>
        ⟨if d.final.errorEncountered then .jobFailure else .success,
         m.trace ++ d.trace, st0 :: (m.snaps ++ d.snaps), slots1, some d.final⟩

/-- `main`: parse the slots string (a diagnostic exits immediately),
probe remote slots, then hand over to the loop phase. -/
def runProgram (cfg : Config) (home : List Char) (cmdArgs : List (List Char))
    (spec : Option (List Char)) (ncpus : Nat) (reach : List Char → Bool)
    (input : List (List Char)) (sched : Sched) : ProgOut :=
  match setup_slots home cmdArgs spec ncpus with
  | .error e => ⟨.parseExit e, [], [], [], none⟩
  | .ok slots0 =>
    runAfterSetup cfg.continue_on_error
      (if cfg.skip_slot_test then slots0 else test_slots reach slots0)
      input sched

/-! ## Predicates over states and traces -/

/-- Every Faulted slot has no running child (the prober faults only
idle slots and the dispatcher skips faulted ones). -/
def SlotsInv (slots : List MSlot) : Prop :=
  ∀ s ∈ slots, s.faulted = true → s.cpid = none

/-- The bookkeeping invariant of the dispatch loop: the table has its
fixed size, `n_active` counts the Busy slots, Faulted slots are idle,
the faulted count is the fixed `n_faulted`, and the admission bound
`n_active + n_faulted ≤ n_slots` holds. -/
def LoopInv (nS nF : Nat) (st : LoopSt) : Prop :=
  st.slots.length = nS ∧
  busyCount st.slots = st.nActive ∧
  SlotsInv st.slots ∧
  faultedCount st.slots = nF ∧
  st.nActive + nF ≤ nS

/-- The weaker invariant maintained by the drain loop for arbitrary
(also invalid) schedules: sizes and faults are fixed and both `n_active`
and the Busy count respect the capacity bound. -/
def WInv (nS nF : Nat) (st : LoopSt) : Prop :=
  st.slots.length = nS ∧
  SlotsInv st.slots ∧
  faultedCount st.slots = nF ∧
  st.nActive + nF ≤ nS ∧
  busyCount st.slots + nF ≤ nS

/-- What holds at every launch event: the pre-fork state satisfies the
invariant, the admission bound is strict (the launch was permitted), the
faulted flags are the run's initial ones, and the chosen slot is idle
and not faulted. -/
def GoodLaunch (nS nF : Nat) (fm : List Bool) : Ev → Prop
  | .launch i _ pre =>
    LoopInv nS nF pre ∧ pre.nActive + nF < nS ∧
    pre.slots.map MSlot.faulted = fm ∧
    (∃ s, pre.slots.get? i = some s ∧ s.cpid = none ∧ s.faulted = false)
  | _ => True

/-- Event classifiers. -/
def isRead : Ev → Bool
  | .read _ => true
  | _ => false

/-- Launch events. -/
def isLaunch : Ev → Bool
  | .launch _ _ _ => true
  | _ => false

/-- Interruption observations. -/
def isIntr : Ev → Bool
  | .intr => true
  | _ => false

/-- A reap (in-loop or drain) of a child that exited nonzero. -/
def failingReap : Ev → Bool
  | .reap _ _ w => statusFail w
  | .reapDrainEv _ w => statusFail w
  | _ => false

/-- `noReadAfter p q tr`: after any event satisfying `p`, no event
satisfying `q` occurs in the remainder of the trace. -/
def noReadAfter (p q : Ev → Bool) : List Ev → Bool
  | [] => true
  | e :: tr => (!(p e) || tr.all (fun x => !(q x))) && noReadAfter p q tr

/-- The facts established about one whole run: every snapshot respects
the capacity bounds with the run's fixed table size and fault count and
keeps the probe's faulted flags; every launch event was admitted under
the strict bound into an idle non-faulted slot; under the default policy
no line is read after a failing reap; no line is read and no job
launched after an interruption observation; and when the process exits
normally, the exit status is failure exactly when some reaped job exited
nonzero, with every running job reaped by then. -/
def RunFacts (k : Bool) (P : ProgOut) : Prop :=
  (∀ x ∈ P.snaps,
     x.slots.length = P.table.length ∧ SlotsInv x.slots ∧
     x.slots.map MSlot.faulted = P.table.map MSlot.faulted ∧
     faultedCount x.slots = faultedCount P.table ∧
     x.nActive + faultedCount P.table ≤ P.table.length ∧
     busyCount x.slots + faultedCount P.table ≤ P.table.length) ∧
  (∀ e ∈ P.trace,
     GoodLaunch P.table.length (faultedCount P.table)
       (P.table.map MSlot.faulted) e) ∧
  (k = false → noReadAfter failingReap isRead P.trace = true) ∧
  noReadAfter isIntr (fun e => isRead e || isLaunch e) P.trace = true ∧
  ((P.outcome = .success ∨ P.outcome = .jobFailure) →
     (P.outcome = .jobFailure ↔ P.trace.any failingReap = true) ∧
     (∀ f, P.finalSt = some f → f.nActive = 0))

/-! ## Character-class facts -/

theorem isSafeChar_spec (c : Char) (h : isSafeChar c = true) :
    c ≠ '\\' ∧ isIFS c = false ∧ c ≠ '\n' := by
  refine ⟨?_, ?_, ?_⟩
  · rintro rfl; exact absurd h (by decide)
  · rcases hi : isIFS c with _ | _
    · rfl
    · exfalso
      have h3 : (c = ' ' ∨ c = '\t') ∨ c = '\n' := by
        simpa [isIFS] using hi
      rcases h3 with (rfl | rfl) | rfl <;> exact absurd h (by decide)
  · rintro rfl; exact absurd h (by decide)

/-! ## The escaping round trip -/

theorem escape_str_cons_safe (c : Char) (rest : List Char)
    (h : isSafeChar c = true) :
    escape_str (c :: rest) = c :: escape_str rest := by
  simp [escape_str, h]

theorem escape_str_cons_other (c : Char) (rest : List Char)
    (h : ¬ isSafeChar c = true) :
    escape_str (c :: rest) = '\\' :: c :: escape_str rest := by
  simp [escape_str, h]

theorem shWordsAux_cons_plain (acc : Option (List Char)) (c : Char)
    (rest : List Char) (hb : c ≠ '\\') (hifs : isIFS c = false) :
    shWordsAux acc (c :: rest) = shWordsAux (pushChar acc c) rest := by
  conv_lhs => unfold shWordsAux
  rw [if_neg hb, if_neg (by simp [hifs])]

theorem shWordsAux_cons_esc (acc : Option (List Char)) (c : Char)
    (rest : List Char) (hc : c ≠ '\n') :
    shWordsAux acc ('\\' :: c :: rest) = shWordsAux (pushChar acc c) rest := by
  conv_lhs => unfold shWordsAux
  rw [if_pos rfl]
  show (if c = '\n' then shWordsAux acc rest
        else shWordsAux (pushChar acc c) rest) = shWordsAux (pushChar acc c) rest
  rw [if_neg hc]

theorem shWordsAux_escape (s : List Char) : ∀ w : List Char, '\n' ∉ s →
    shWordsAux (some w) (escape_str s) = [w ++ s] := by
  induction s with
  | nil => intro w _; simp [escape_str, shWordsAux, flushWord]
  | cons c rest ih =>
    intro w hnl
    have hc : c ≠ '\n' := fun h => hnl (h ▸ List.mem_cons_self _ _)
    have hrest : '\n' ∉ rest := fun h => hnl (List.mem_cons_of_mem _ h)
    by_cases hsafe : isSafeChar c = true
    · obtain ⟨hb, hifs, _⟩ := isSafeChar_spec c hsafe
      rw [escape_str_cons_safe c _ hsafe, shWordsAux_cons_plain _ _ _ hb hifs]
      have hp : pushChar (some w) c = some (w ++ [c]) := rfl
      rw [hp, ih (w ++ [c]) hrest]
      simp
    · rw [escape_str_cons_other c _ hsafe, shWordsAux_cons_esc _ _ _ hc]
      have hp : pushChar (some w) c = some (w ++ [c]) := rfl
      rw [hp, ih (w ++ [c]) hrest]
      simp

/-- C5: `escape_str` passes every character of the safe set
{alphanumeric, `_`, `-`, `/`, `.`} through unchanged and prefixes every
other character with a backslash; consequently evaluating the escaped
form of a line through a POSIX shell (`shWords`) yields the original
line byte-for-byte as a single word.  (A line is nonempty here — the
claim's lines contain at least a space, quote or metacharacter — and
contains no newline, the line terminator having been stripped before
escaping.) -/
theorem C5_escape_roundtrip :
    (∀ s : List Char, escape_str s =
       s.flatMap (fun c => if isSafeChar c then [c] else ['\\', c])) ∧
    (∀ s : List Char, s ≠ [] → '\n' ∉ s → shWords (escape_str s) = [s]) := by
  constructor
  · intro s
    induction s with
    | nil => rfl
    | cons c rest ih =>
      by_cases hsafe : isSafeChar c = true <;>
        simp [escape_str, hsafe, ih]
  · intro s hne hnl
    match s, hne with
    | c :: rest, _ =>
      have hc : c ≠ '\n' := fun h => hnl (h ▸ List.mem_cons_self _ _)
      have hrest : '\n' ∉ rest := fun h => hnl (List.mem_cons_of_mem _ h)
      have hp : pushChar none c = some [c] := rfl
      by_cases hsafe : isSafeChar c = true
      · obtain ⟨hb, hifs, _⟩ := isSafeChar_spec c hsafe
        rw [show shWords (escape_str (c :: rest))
              = shWordsAux none (escape_str (c :: rest)) from rfl]
        rw [escape_str_cons_safe c _ hsafe, shWordsAux_cons_plain _ _ _ hb hifs]
        rw [hp, shWordsAux_escape rest [c] hrest]
        simp
      · rw [show shWords (escape_str (c :: rest))
              = shWordsAux none (escape_str (c :: rest)) from rfl]
        rw [escape_str_cons_other c _ hsafe, shWordsAux_cons_esc _ _ _ hc]
        rw [hp, shWordsAux_escape rest [c] hrest]
        simp

/-- Witness for C5 at the line `a b'$` (space, single quote, shell
metacharacter). -/
theorem C5_escape_roundtrip_witness :
    shWords (escape_str ['a', ' ', 'b', Char.ofNat 39, '$'])
      = [['a', ' ', 'b', Char.ofNat 39, '$']] :=
  C5_escape_roundtrip.2 ['a', ' ', 'b', Char.ofNat 39, '$'] (by decide) (by decide)

/-- C9: `read_line` on the finite stream `"abc"` — a final line with no
terminating newline — reaches the `strncpy` through the NULL pointer
returned by the recursive `read_line_offset` call, instead of returning
the line: the reader is not well-defined on such streams (code bug; the
spec's contract "returns absence at end of stream" and the claim's
"well-defined result for every finite stream" are the evident intent).
-/
theorem C9_read_line_crash :
    read_line ⟨['a', 'b', 'c'], false⟩ = .error .nullDeref := by rfl

/-! ## The free-slot scan and the pid scan -/

theorem findFreeSlot_some_spec : ∀ (l : List MSlot) (i : Nat),
    findFreeSlot l = some i →
    ∃ s, l.get? i = some s ∧ s.cpid = none ∧ s.faulted = false ∧
      ∀ j t, j < i → l.get? j = some t → ¬(t.cpid = none ∧ t.faulted = false) := by
  intro l
  induction l with
  | nil => intro i hi; simp [findFreeSlot] at hi
  | cons s rest ih =>
    intro i hi
    unfold findFreeSlot at hi
    by_cases hfree : s.cpid = none ∧ s.faulted = false
    · rw [if_pos hfree] at hi
      cases hi
      exact ⟨s, rfl, hfree.1, hfree.2, fun j t hj _ => absurd hj (by omega)⟩
    · rw [if_neg hfree] at hi
      cases hrec : findFreeSlot rest with
      | none => rw [hrec] at hi; simp at hi
      | some k =>
        rw [hrec] at hi
        simp only [Option.map_some'] at hi
        cases hi
        obtain ⟨t, hget, h1, h2, hmin⟩ := ih k hrec
        refine ⟨t, by simpa using hget, h1, h2, ?_⟩
        intro j u hj hu
        cases j with
        | zero =>
          rw [List.get?_cons_zero] at hu
          cases hu
          exact hfree
        | succ j' =>
          rw [List.get?_cons_succ] at hu
          exact hmin j' u (by omega) hu

theorem findFreeSlot_exists : ∀ (l : List MSlot),
    (∃ j s, l.get? j = some s ∧ s.cpid = none ∧ s.faulted = false) →
    ∃ i, findFreeSlot l = some i := by
  intro l
  induction l with
  | nil => rintro ⟨j, s, hj, -, -⟩; simp at hj
  | cons s rest ih =>
    rintro ⟨j, t, hj, h1, h2⟩
    unfold findFreeSlot
    by_cases hfree : s.cpid = none ∧ s.faulted = false
    · exact ⟨0, if_pos hfree ▸ rfl⟩
    · rw [if_neg hfree]
      cases j with
      | zero =>
        rw [List.get?_cons_zero] at hj
        cases hj
        exact absurd ⟨h1, h2⟩ hfree
      | succ j' =>
        rw [List.get?_cons_succ] at hj
        obtain ⟨k, hk⟩ := ih ⟨j', t, hj, h1, h2⟩
        exact ⟨k + 1, by rw [hk]; rfl⟩

theorem findFreeSlot_none_count : ∀ (l : List MSlot),
    findFreeSlot l = none → l.length ≤ busyCount l + faultedCount l := by
  intro l
  induction l with
  | nil => intro _; simp [busyCount, faultedCount]
  | cons s rest ih =>
    intro h
    unfold findFreeSlot at h
    by_cases hfree : s.cpid = none ∧ s.faulted = false
    · rw [if_pos hfree] at h; cases h
    · rw [if_neg hfree] at h
      cases hrec : findFreeSlot rest with
      | some k => rw [hrec] at h; simp at h
      | none =>
        have hr := ih hrec
        have hone : 1 ≤ (if s.cpid.isSome then 1 else 0) +
            (if s.faulted then 1 else 0) := by
          by_cases h1 : s.cpid = none
          · have h2 : s.faulted = true := by
              by_cases h2 : s.faulted = true
              · exact h2
              · exact absurd ⟨h1, by simpa using h2⟩ hfree
            simp [h2]
          · have : s.cpid.isSome := by
              cases hc : s.cpid with
              | none => exact absurd hc h1
              | some p => rfl
            simp [this]
        simp only [busyCount, faultedCount, List.countP_cons, List.length_cons]
        simp only [busyCount, faultedCount] at hr
        by_cases hb : s.cpid.isSome <;> by_cases hf : s.faulted <;>
          simp [hb, hf] at hone ⊢ <;> omega

theorem findSlotPid_some_spec : ∀ (l : List MSlot) (pid i : Nat),
    findSlotPid pid l = some i → ∃ s, l.get? i = some s ∧ s.cpid = some pid := by
  intro l
  induction l with
  | nil => intro pid i hi; simp [findSlotPid] at hi
  | cons s rest ih =>
    intro pid i hi
    unfold findSlotPid at hi
    by_cases hp : s.cpid = some pid
    · rw [if_pos hp] at hi; cases hi; exact ⟨s, rfl, hp⟩
    · rw [if_neg hp] at hi
      cases hrec : findSlotPid pid rest with
      | none => rw [hrec] at hi; simp at hi
      | some k =>
        rw [hrec] at hi
        simp only [Option.map_some'] at hi
        cases hi
        obtain ⟨t, hget, ht⟩ := ih pid k hrec
        exact ⟨t, by simpa using hget, ht⟩

/-! ## Updating one table entry -/

theorem updIdx_length (f : MSlot → MSlot) : ∀ (l : List MSlot) (i : Nat),
    (updIdx f l i).length = l.length := by
  intro l
  induction l with
  | nil => intro i; rfl
  | cons s rest ih =>
    intro i
    cases i with
    | zero => rfl
    | succ j => simp [updIdx, ih j]

theorem updIdx_get_same (f : MSlot → MSlot) : ∀ (l : List MSlot) (i : Nat) (s : MSlot),
    l.get? i = some s → (updIdx f l i).get? i = some (f s) := by
  intro l
  induction l with
  | nil => intro i s h; simp at h
  | cons a rest ih =>
    intro i s h
    cases i with
    | zero => rw [List.get?_cons_zero] at h; cases h; rfl
    | succ j =>
      rw [List.get?_cons_succ] at h
      simpa [updIdx] using ih j s h

theorem updIdx_get_other (f : MSlot → MSlot) : ∀ (l : List MSlot) (i j : Nat),
    j ≠ i → (updIdx f l i).get? j = l.get? j := by
  intro l
  induction l with
  | nil => intro i j _; rfl
  | cons a rest ih =>
    intro i j hne
    cases i with
    | zero =>
      cases j with
      | zero => exact absurd rfl hne
      | succ j' => rfl
    | succ i' =>
      cases j with
      | zero => rfl
      | succ j' => simpa [updIdx] using ih i' j' (by omega)

theorem updIdx_mem (f : MSlot → MSlot) : ∀ (l : List MSlot) (i : Nat) (x : MSlot),
    x ∈ updIdx f l i → x ∈ l ∨ ∃ s, l.get? i = some s ∧ x = f s := by
  intro l
  induction l with
  | nil => intro i x h; simp [updIdx] at h
  | cons a rest ih =>
    intro i x h
    cases i with
    | zero =>
      rcases List.mem_cons.mp h with rfl | hm
      · exact Or.inr ⟨a, rfl, rfl⟩
      · exact Or.inl (List.mem_cons_of_mem _ hm)
    | succ j =>
      rcases List.mem_cons.mp h with rfl | hm
      · exact Or.inl (List.mem_cons_self _ _)
      · rcases ih j x hm with h1 | ⟨s, hs, hx⟩
        · exact Or.inl (List.mem_cons_of_mem _ h1)
        · exact Or.inr ⟨s, by simpa using hs, hx⟩

theorem updIdx_countP_flip (p : MSlot → Bool) (f : MSlot → MSlot) :
    ∀ (l : List MSlot) (i : Nat) (s : MSlot), l.get? i = some s →
    p s = true → p (f s) = false →
    (updIdx f l i).countP p + 1 = l.countP p := by
  intro l
  induction l with
  | nil => intro i s h; simp at h
  | cons a rest ih =>
    intro i s h hs hfs
    cases i with
    | zero =>
      rw [List.get?_cons_zero] at h
      cases h
      simp [updIdx, List.countP_cons, hs, hfs]
    | succ j =>
      rw [List.get?_cons_succ] at h
      have := ih j s h hs hfs
      simp only [updIdx, List.countP_cons]
      omega

theorem updIdx_countP_raise (p : MSlot → Bool) (f : MSlot → MSlot) :
    ∀ (l : List MSlot) (i : Nat) (s : MSlot), l.get? i = some s →
    p s = false → p (f s) = true →
    (updIdx f l i).countP p = l.countP p + 1 := by
  intro l
  induction l with
  | nil => intro i s h; simp at h
  | cons a rest ih =>
    intro i s h hs hfs
    cases i with
    | zero =>
      rw [List.get?_cons_zero] at h
      cases h
      simp [updIdx, List.countP_cons, hs, hfs]
    | succ j =>
      rw [List.get?_cons_succ] at h
      have := ih j s h hs hfs
      simp only [updIdx, List.countP_cons]
      omega

theorem updIdx_countP_keep (p : MSlot → Bool) (f : MSlot → MSlot) :
    ∀ (l : List MSlot) (i : Nat) (s : MSlot), l.get? i = some s →
    p (f s) = p s →
    (updIdx f l i).countP p = l.countP p := by
  intro l
  induction l with
  | nil => intro i s h; simp at h
  | cons a rest ih =>
    intro i s h heq
    cases i with
    | zero =>
      rw [List.get?_cons_zero] at h
      cases h
      simp only [updIdx, List.countP_cons, heq]
    | succ j =>
      rw [List.get?_cons_succ] at h
      have := ih j s h heq
      simp only [updIdx, List.countP_cons]
      omega

theorem updIdx_map_eq (g : MSlot → Bool) (f : MSlot → MSlot)
    (hf : ∀ s, g (f s) = g s) : ∀ (l : List MSlot) (i : Nat),
    (updIdx f l i).map g = l.map g := by
  intro l
  induction l with
  | nil => intro i; rfl
  | cons a rest ih =>
    intro i
    cases i with
    | zero => simp [updIdx, hf]
    | succ j => simp [updIdx, ih j]

/-- C2: whenever the table has at least one non-faulted slot without a
running child, the dispatch step `launchLine` succeeds and assigns the
line to the slot of smallest index among them (the free-slot scan runs
from index 0 upward), recording the forked child and the line there. -/
theorem C2_lowest_idle_slot (st : LoopSt) (line : List Char)
    (h : ∃ j s, st.slots.get? j = some s ∧ s.cpid = none ∧ s.faulted = false) :
    ∃ i st2, launchLine st line = .ok (st2, i) ∧
      (∃ s, st.slots.get? i = some s ∧ s.cpid = none ∧ s.faulted = false ∧
        st2.slots.get? i = some (mkBusy st.nextPid line s)) ∧
      ∀ j t, j < i → st.slots.get? j = some t →
        ¬(t.cpid = none ∧ t.faulted = false) := by
  obtain ⟨i, hfind⟩ := findFreeSlot_exists st.slots h
  obtain ⟨s, hget, h1, h2, hmin⟩ := findFreeSlot_some_spec st.slots i hfind
  refine ⟨i, ⟨updIdx (mkBusy st.nextPid line) st.slots i, st.nActive + 1,
              st.errorEncountered, st.interrupted, st.nextPid + 1⟩,
          ?_, ⟨s, hget, h1, h2, ?_⟩, hmin⟩
  · unfold launchLine
    rw [hfind]
  · exact updIdx_get_same _ st.slots i s hget

/-- Witness for C2: a two-slot table with slot 0 busy and slot 1 free —
the dispatch step picks slot 1, the lowest free index. -/
theorem C2_lowest_idle_slot_witness :
    ∃ i st2,
      launchLine ⟨[{ localSlot [] with cpid := some 5, arg := some ['x'] },
                   localSlot []], 1, false, false, 6⟩ ['y'] = .ok (st2, i) ∧
      (∃ s, [{ localSlot [] with cpid := some 5, arg := some ['x'] },
             localSlot []].get? i = some s ∧ s.cpid = none ∧ s.faulted = false ∧
        st2.slots.get? i = some (mkBusy 6 ['y'] s)) ∧
      ∀ j t, j < i →
        [{ localSlot [] with cpid := some 5, arg := some ['x'] },
         localSlot []].get? j = some t →
        ¬(t.cpid = none ∧ t.faulted = false) :=
  C2_lowest_idle_slot
    ⟨[{ localSlot [] with cpid := some 5, arg := some ['x'] },
      localSlot []], 1, false, false, 6⟩ ['y']
    ⟨1, localSlot [], rfl, rfl, rfl⟩

/-! ## The slot-specification grammar: bare-integer entries -/

theorem isDigitC_not_space (c : Char) (h : isDigitC c = true) :
    isSpaceC c = false := by
  rcases hs : isSpaceC c with _ | _
  · rfl
  · exfalso
    have h3 : ((((c = ' ' ∨ c = '\t') ∨ c = '\n') ∨ c = Char.ofNat 11) ∨
        c = Char.ofNat 12) ∨ c = '\r' := by
      simpa [isSpaceC] using hs
    rcases h3 with ((((rfl | rfl) | rfl) | rfl) | rfl) | rfl <;>
      exact absurd h (by decide)

theorem numPhase_digits (d : Char) (rest : List Char)
    (hd : ∀ c ∈ d :: rest, isDigitC c = true) :
    numPhase (d :: rest) = (atol (d :: rest), []) := by
  show (if isDigitC d = true then
          let num := List.takeWhile isDigitC (d :: rest)
          let c2s := skipSpaces (List.dropWhile isDigitC (d :: rest))
          match c2s with
          | '*' :: c3 => (atol num, skipSpaces c3)
          | [] => (atol num, [])
          | ch :: _ => if ch = ',' then (atol num, c2s) else (1, d :: rest)
        else (1, d :: rest)) = (atol (d :: rest), [])
  rw [if_pos (hd d (List.mem_cons_self _ _))]
  rw [show List.takeWhile isDigitC (d :: rest) = d :: rest from
        List.takeWhile_eq_self_iff.mpr hd]
  rw [show (d :: rest).dropWhile isDigitC = [] from
        List.dropWhile_eq_nil_iff.mpr hd]
  rfl

theorem parseEntry_digits (home : List Char) (cmdArgs : List (List Char))
    (d : Char) (rest : List Char)
    (hd : ∀ c ∈ d :: rest, isDigitC c = true) :
    parseEntry home cmdArgs (d :: rest)
      = .done (List.replicate (atol (d :: rest)) (localSlot cmdArgs)) := by
  have hskip : skipSpaces (d :: rest) = d :: rest := by
    unfold skipSpaces
    rw [List.dropWhile_cons]
    simp [isDigitC_not_space d (hd d (List.mem_cons_self _ _))]
  simp only [parseEntry]
  rw [hskip, numPhase_digits d rest hd]
  rfl

theorem parseLoop_digits (home : List Char) (cmdArgs : List (List Char)) :
    ∀ (ds : List Char), ds ≠ [] → (∀ c ∈ ds, isDigitC c = true) →
    parseLoop home cmdArgs (ds.length + 1) ds
      = .ok (List.replicate (atol ds) (localSlot cmdArgs)) := by
  intro ds hne hd
  match ds, hne with
  | d :: rest, _ =>
    show parseLoop home cmdArgs (rest.length + 1 + 1) (d :: rest) = _
    unfold parseLoop
    rw [parseEntry_digits home cmdArgs d rest hd]

/-- C6: the slot specifications `"1,1,1"`, `"1,2"` and `"3*localhost"`
all produce exactly three local slots (hostname absent), identical
records differing only in position; in general a bare integer entry
(digits up to end of string) yields that many local slots. -/
theorem C6_slot_spec_three_local (home : List Char) (cmdArgs : List (List Char))
    (ncpus : Nat) :
    setup_slots home cmdArgs (some ['1', ',', '1', ',', '1']) ncpus
      = .ok (List.replicate 3 (localSlot cmdArgs)) ∧
    setup_slots home cmdArgs (some ['1', ',', '2']) ncpus
      = .ok (List.replicate 3 (localSlot cmdArgs)) ∧
    setup_slots home cmdArgs
        (some ['3', '*', 'l', 'o', 'c', 'a', 'l', 'h', 'o', 's', 't']) ncpus
      = .ok (List.replicate 3 (localSlot cmdArgs)) ∧
    (∀ ds : List Char, ds ≠ [] → (∀ c ∈ ds, isDigitC c = true) →
      setup_slots home cmdArgs (some ds) ncpus
        = .ok (List.replicate (atol ds) (localSlot cmdArgs))) :=
  ⟨rfl, rfl, rfl, fun ds hne hd => parseLoop_digits home cmdArgs ds hne hd⟩

/-- Witness for C6: the bare-integer specification `"4"` yields four
local slots. -/
theorem C6_slot_spec_three_local_witness :
    setup_slots [] [] (some ['4']) 0 = .ok (List.replicate 4 (localSlot [])) :=
  (C6_slot_spec_three_local [] [] 0).2.2.2 ['4'] (by decide) (by decide)

/-- C8 counterexample: the malformed specification `"a!"` (an
unterminated entry) is rejected through the `"Bad slot description"`
diagnostic, whose `exit(1)` status equals both the job-failure status
(`EXIT_FAILURE`) and the internal-invariant-violation status — it is
not a dedicated, distinct parse-error status as the claim states. -/
theorem C8_counterexample :
    setup_slots [] [] (some ['a', '!']) 1 = .error .badSlotDesc ∧
    exitCodeOf (.parseExit .badSlotDesc) = exitCodeOf .jobFailure ∧
    exitCodeOf (.parseExit .badSlotDesc) = exitCodeOf (.fatalErr .noFreeSlot) :=
  ⟨rfl, rfl, rfl⟩

/-- C8 (amended): every malformed slot specification makes the program
emit its diagnostic and exit during setup, before reading any input or
dispatching any job (empty trace, no loop state); a zero-length hostname
exits with status 2 (distinct from the job-failure status 1), while an
unterminated entry exits with status 1, which coincides with the
job-failure and internal-invariant-violation statuses. -/
theorem C8_parse_error_exit (cfg : Config) (home : List Char)
    (cmdArgs : List (List Char)) (spec : Option (List Char)) (ncpus : Nat)
    (reach : List Char → Bool) (input : List (List Char)) (sched : Sched)
    (e : PErr) (h : setup_slots home cmdArgs spec ncpus = .error e) :
    runProgram cfg home cmdArgs spec ncpus reach input sched
      = ⟨.parseExit e, [], [], [], none⟩ ∧
    pErrCode .badHostname = 2 ∧ pErrCode .badSlotDesc = 1 ∧
    exitCodeOf (.parseExit .badSlotDesc) = exitCodeOf .jobFailure ∧
    exitCodeOf (.parseExit .badHostname) ≠ exitCodeOf .jobFailure := by
  refine ⟨?_, rfl, rfl, rfl, by decide⟩
  unfold runProgram
  rw [h]

/-- Witness for C8's amended theorem: the specification `"!"` has a
zero-length hostname; the program exits with the parse diagnostic and
an empty trace. -/
theorem C8_parse_error_exit_witness :
    runProgram ⟨false, true⟩ [] [] (some ['!']) 1 (fun _ => true) [['x']] ⟨[], []⟩
      = ⟨.parseExit .badHostname, [], [], [], none⟩ ∧
    pErrCode .badHostname = 2 ∧ pErrCode .badSlotDesc = 1 ∧
    exitCodeOf (.parseExit .badSlotDesc) = exitCodeOf .jobFailure ∧
    exitCodeOf (.parseExit .badHostname) ≠ exitCodeOf .jobFailure :=
  C8_parse_error_exit ⟨false, true⟩ [] [] (some ['!']) 1 (fun _ => true)
    [['x']] ⟨[], []⟩ .badHostname (by rfl)

/-- C10: whenever the slot specification expands to zero slots in total
(for example the string `"0"`), the program prints the
`"Bad process limit"` diagnostic and exits with status 2 before reading
any input line and before dispatching any job (empty trace, no loop
state). -/
theorem C10_zero_slots_exit (cfg : Config) (home : List Char)
    (cmdArgs : List (List Char)) (spec : Option (List Char)) (ncpus : Nat)
    (reach : List Char → Bool) (input : List (List Char)) (sched : Sched)
    (h : setup_slots home cmdArgs spec ncpus = .ok []) :
    runProgram cfg home cmdArgs spec ncpus reach input sched
      = ⟨.procLimit, [], [], [], none⟩ ∧
    exitCodeOf .procLimit = some 2 := by
  refine ⟨?_, rfl⟩
  unfold runProgram
  rw [h]
  cases hsk : cfg.skip_slot_test <;>
    simp [runAfterSetup, test_slots, test_slots_go]

/-- Witness for C10 at the specification `"0"`. -/
theorem C10_zero_slots_exit_witness :
    runProgram ⟨false, false⟩ [] [] (some ['0']) 1 (fun _ => true) [['x']] ⟨[], []⟩
      = ⟨.procLimit, [], [], [], none⟩ ∧
    exitCodeOf .procLimit = some 2 :=
  C10_zero_slots_exit ⟨false, false⟩ [] [] (some ['0']) 1 (fun _ => true)
    [['x']] ⟨[], []⟩ (by rfl)

/-! ## Step lemmas for the dispatch loop -/

theorem reapMain_spec (nS nF : Nat) (st : LoopSt) (pid : Nat) (w : Status)
    (hInv : LoopInv nS nF st) (st2 : LoopSt) (i : Nat)
    (h : reapMain st pid w = .ok (st2, i)) :
    LoopInv nS nF st2 ∧
    st2.slots.map MSlot.faulted = st.slots.map MSlot.faulted ∧
    st2.nActive + 1 = st.nActive ∧
    st2.interrupted = st.interrupted ∧
    st2.errorEncountered = (st.errorEncountered || statusFail w) := by
  obtain ⟨hlen, hbusy, hslots, hfc, hbound⟩ := hInv
  unfold reapMain at h
  cases hfind : findSlotPid pid st.slots with
  | none => rw [hfind] at h; cases h
  | some j =>
    rw [hfind] at h
    cases h
    obtain ⟨s, hget, hcpid⟩ := findSlotPid_some_spec st.slots pid i hfind
    have hcount := updIdx_countP_flip (fun t => t.cpid.isSome) clearSlotFn
      st.slots i s hget (by simp [hcpid]) (by simp [clearSlotFn])
    have hfcount := updIdx_countP_keep (fun t => t.faulted) clearSlotFn
      st.slots i s hget rfl
    have hmap := updIdx_map_eq MSlot.faulted clearSlotFn (fun t => rfl) st.slots i
    refine ⟨⟨?_, ?_, ?_, ?_, ?_⟩, hmap, ?_, rfl, rfl⟩
    · simpa [updIdx_length] using hlen
    · show busyCount (updIdx clearSlotFn st.slots i) = st.nActive - 1
      simp only [busyCount] at hbusy hcount ⊢
      omega
    · intro x hx hfx
      rcases updIdx_mem clearSlotFn st.slots i x hx with hm | ⟨t, hget2, rfl⟩
      · exact hslots x hm hfx
      · simp [clearSlotFn]
    · show faultedCount (updIdx clearSlotFn st.slots i) = nF
      simp only [faultedCount] at hfc hfcount ⊢
      omega
    · show st.nActive - 1 + nF ≤ nS
      omega
    · show st.nActive - 1 + 1 = st.nActive
      simp only [busyCount] at hbusy hcount
      omega

theorem launchLine_spec (nS nF : Nat) (st : LoopSt) (line : List Char)
    (hInv : LoopInv nS nF st) (hlt : st.nActive + nF < nS) :
    ∃ st2 i, launchLine st line = .ok (st2, i) ∧
      LoopInv nS nF st2 ∧
      st2.slots.map MSlot.faulted = st.slots.map MSlot.faulted ∧
      st2.nActive = st.nActive + 1 ∧
      st2.interrupted = st.interrupted ∧
      st2.errorEncountered = st.errorEncountered ∧
      (∃ s, st.slots.get? i = some s ∧ s.cpid = none ∧ s.faulted = false) := by
  obtain ⟨hlen, hbusy, hslots, hfc, hbound⟩ := hInv
  cases hfind : findFreeSlot st.slots with
  | none =>
    exfalso
    have := findFreeSlot_none_count st.slots hfind
    rw [hlen, hbusy, hfc] at this
    omega
  | some i =>
    obtain ⟨s, hget, h1, h2, _⟩ := findFreeSlot_some_spec st.slots i hfind
    have hcount := updIdx_countP_raise (fun t => t.cpid.isSome)
      (mkBusy st.nextPid line) st.slots i s hget (by simp [h1]) (by simp [mkBusy])
    have hfcount := updIdx_countP_keep (fun t => t.faulted)
      (mkBusy st.nextPid line) st.slots i s hget rfl
    have hmap := updIdx_map_eq MSlot.faulted (mkBusy st.nextPid line)
      (fun t => rfl) st.slots i
    refine ⟨⟨updIdx (mkBusy st.nextPid line) st.slots i, st.nActive + 1,
             st.errorEncountered, st.interrupted, st.nextPid + 1⟩, i,
            ?_, ⟨?_, ?_, ?_, ?_, ?_⟩, hmap, rfl, rfl, rfl, ⟨s, hget, h1, h2⟩⟩
    · unfold launchLine
      rw [hfind]
    · simpa [updIdx_length] using hlen
    · show busyCount (updIdx (mkBusy st.nextPid line) st.slots i) = st.nActive + 1
      simp only [busyCount] at hbusy hcount ⊢
      omega
    · intro x hx hfx
      rcases updIdx_mem (mkBusy st.nextPid line) st.slots i x hx with hm | ⟨t, hget2, rfl⟩
      · exact hslots x hm hfx
      · exfalso
        rw [hget] at hget2
        cases hget2
        rw [show (mkBusy st.nextPid line s).faulted = s.faulted from rfl] at hfx
        rw [h2] at hfx
        cases hfx
    · show faultedCount (updIdx (mkBusy st.nextPid line) st.slots i) = nF
      simp only [faultedCount] at hfc hfcount ⊢
      omega
    · show st.nActive + 1 + nF ≤ nS
      omega

/-! ## Trace predicates -/

@[simp]
theorem GoodLaunch_read (nS nF : Nat) (fm : List Bool) (l : List Char) :
    GoodLaunch nS nF fm (.read l) = True := rfl

@[simp]
theorem GoodLaunch_intr (nS nF : Nat) (fm : List Bool) :
    GoodLaunch nS nF fm .intr = True := rfl

@[simp]
theorem GoodLaunch_reap (nS nF : Nat) (fm : List Bool) (i pid : Nat) (w : Status) :
    GoodLaunch nS nF fm (.reap i pid w) = True := rfl

@[simp]
theorem GoodLaunch_reapDrain (nS nF : Nat) (fm : List Bool) (pid : Nat) (w : Status) :
    GoodLaunch nS nF fm (.reapDrainEv pid w) = True := rfl

theorem noReadAfter_of_all (p q : Ev → Bool) (l : List Ev)
    (h : l.all (fun e => !(p e)) = true) : noReadAfter p q l = true := by
  induction l with
  | nil => rfl
  | cons e l ih =>
    simp only [List.all_cons, Bool.and_eq_true, Bool.not_eq_true'] at h
    simp only [noReadAfter, Bool.and_eq_true]
    exact ⟨by simp [h.1], ih h.2⟩

theorem noReadAfter_append (p q : Ev → Bool) (a b : List Ev)
    (ha : noReadAfter p q a = true) (hb : noReadAfter p q b = true)
    (hab : a.any p = true → b.all (fun x => !(q x)) = true) :
    noReadAfter p q (a ++ b) = true := by
  induction a with
  | nil => simpa using hb
  | cons e a ih =>
    simp only [noReadAfter, Bool.and_eq_true] at ha
    obtain ⟨h1, h2⟩ := ha
    simp only [List.cons_append, noReadAfter, Bool.and_eq_true]
    constructor
    · rcases hp : p e with _ | _
      · simp [hp]
      · rw [hp] at h1
        simp only [Bool.not_true, Bool.false_or] at h1
        have hball := hab (by simp [hp])
        have hall : (a ++ b).all (fun x => !(q x)) = true := by
          simp only [List.all_eq_true] at h1 hball ⊢
          intro x hx
          rcases List.mem_append.mp hx with hm | hm
          · exact h1 x hm
          · exact hball x hm
        simp [hall]
    · exact ih h2 (fun hany => hab (by simp [hany]))

/-! ## The iteration lemmas -/

theorem iterStep_inl_spec (k : Bool) (nS nF : Nat) (line : List Char)
    (st : LoopSt) (o : IterOrc) (hInv : LoopInv nS nF st) (out : LoopOut)
    (h : iterStep k nS nF line st o = .inl out) :
    LoopInv nS nF out.final ∧
    out.final.slots.map MSlot.faulted = st.slots.map MSlot.faulted ∧
    (∀ x ∈ out.snaps, LoopInv nS nF x ∧
      x.slots.map MSlot.faulted = st.slots.map MSlot.faulted) ∧
    (∀ e ∈ out.trace, GoodLaunch nS nF (st.slots.map MSlot.faulted) e) ∧
    out.final.errorEncountered = (st.errorEncountered || out.trace.any failingReap) ∧
    noReadAfter failingReap isRead out.trace = true ∧
    noReadAfter isIntr (fun e => isRead e || isLaunch e) out.trace = true := by
  unfold iterStep at h
  by_cases h1 : o.i1
  · simp only [h1, if_true] at h
    cases h
    refine ⟨hInv, rfl, ?_, ?_, by simp [failingReap],
            by simp [noReadAfter, failingReap],
            by simp [noReadAfter, isIntr, isRead, isLaunch]⟩
    · intro x hx
      simp at hx
      subst hx
      exact ⟨hInv, rfl⟩
    · intro e he
      simp at he
      subst he
      simp
  · simp only [h1, if_false, Bool.false_eq_true] at h
    by_cases h2 : st.interrupted
    · simp only [h2, if_true] at h
      cases h
      exact ⟨hInv, rfl, by simp, by simp, by simp, rfl, rfl⟩
    · simp only [h2, if_false, Bool.false_eq_true] at h
      by_cases h3 : (st.errorEncountered && !k) = true
      · rw [if_pos h3] at h
        cases h
        exact ⟨hInv, rfl, by simp, by simp, by simp, rfl, rfl⟩
      · rw [if_neg h3] at h
        by_cases h4 : o.i2
        · simp only [h4, if_true] at h
          cases h
          refine ⟨hInv, rfl, ?_, ?_, by simp [failingReap], ?_, ?_⟩
          · intro x hx
            simp at hx
            subst hx
            exact ⟨hInv, rfl⟩
          · intro e he
            simp at he
            rcases he with rfl | rfl <;> simp
          · simp [noReadAfter, failingReap, isRead]
          · simp [noReadAfter, isIntr, isRead, isLaunch]
        · simp only [h4, if_false, Bool.false_eq_true, h2] at h
          by_cases h5 : st.nActive + nF ≥ nS
          · rw [if_pos h5] at h
            cases ho : o.reap with
            | none =>
              simp only [ho] at h
              cases h
              refine ⟨hInv, rfl, by simp, ?_, by simp [failingReap], ?_, ?_⟩
              · intro e he
                simp at he
                subst he
                simp
              · simp [noReadAfter, failingReap, isRead]
              · simp [noReadAfter, isIntr, isRead, isLaunch]
            | some pw =>
              cases hre : reapMain st pw.1 pw.2 with
              | error f =>
                simp only [ho, hre] at h
                cases h
                refine ⟨hInv, rfl, by simp, ?_, by simp [failingReap], ?_, ?_⟩
                · intro e he
                  simp at he
                  subst he
                  simp
                · simp [noReadAfter, failingReap, isRead]
                · simp [noReadAfter, isIntr, isRead, isLaunch]
              | ok si =>
                obtain ⟨hInv2, hmap2, hact2, hint2, herr2⟩ :=
                  reapMain_spec nS nF st pw.1 pw.2 hInv si.1 si.2 (by rw [hre])
                cases hla : launchLine si.1 line with
                | error f =>
                  simp only [ho, hre, hla] at h
                  cases h
                  refine ⟨hInv2, hmap2, ?_, ?_, ?_, ?_, ?_⟩
                  · intro x hx
                    simp at hx
                    subst hx
                    exact ⟨hInv2, hmap2⟩
                  · intro e he
                    simp at he
                    rcases he with rfl | rfl <;> simp
                  · simp [herr2, failingReap]
                  · simp [noReadAfter, failingReap, isRead]
                  · simp [noReadAfter, isIntr, isRead, isLaunch]
                | ok st4i =>
                  simp only [ho, hre, hla] at h
                  cases h
          · rw [if_neg h5] at h
            cases hla : launchLine st line with
            | error f =>
              exfalso
              obtain ⟨st4, i4, heq, -⟩ :=
                launchLine_spec nS nF st line hInv (by omega)
              rw [heq] at hla
              cases hla
            | ok st4i =>
              simp only [hla] at h
              cases h

theorem iterStep_inr_spec (k : Bool) (nS nF : Nat) (line : List Char)
    (st : LoopSt) (o : IterOrc) (hInv : LoopInv nS nF st)
    (r : LoopSt × List Ev × List LoopSt)
    (h : iterStep k nS nF line st o = .inr r) :
    LoopInv nS nF r.1 ∧
    r.1.slots.map MSlot.faulted = st.slots.map MSlot.faulted ∧
    (∀ x ∈ r.2.2, LoopInv nS nF x ∧
      x.slots.map MSlot.faulted = st.slots.map MSlot.faulted) ∧
    (∀ e ∈ r.2.1, GoodLaunch nS nF (st.slots.map MSlot.faulted) e) ∧
    r.1.errorEncountered = (st.errorEncountered || r.2.1.any failingReap) ∧
    noReadAfter failingReap isRead r.2.1 = true ∧
    r.2.1.all (fun e => !(isIntr e)) = true := by
  unfold iterStep at h
  by_cases h1 : o.i1
  · simp only [h1, if_true] at h
    cases h
  · simp only [h1, if_false, Bool.false_eq_true] at h
    by_cases h2 : st.interrupted
    · simp only [h2, if_true] at h
      cases h
    · simp only [h2, if_false, Bool.false_eq_true] at h
      by_cases h3 : (st.errorEncountered && !k) = true
      · rw [if_pos h3] at h
        cases h
      · rw [if_neg h3] at h
        by_cases h4 : o.i2
        · simp only [h4, if_true] at h
          cases h
        · simp only [h4, if_false, Bool.false_eq_true, h2] at h
          by_cases h5 : st.nActive + nF ≥ nS
          · rw [if_pos h5] at h
            cases ho : o.reap with
            | none =>
              simp only [ho] at h
              cases h
            | some pw =>
              cases hre : reapMain st pw.1 pw.2 with
              | error f =>
                simp only [ho, hre] at h
                cases h
              | ok si =>
                obtain ⟨hInv2, hmap2, hact2, hint2, herr2⟩ :=
                  reapMain_spec nS nF st pw.1 pw.2 hInv si.1 si.2 (by rw [hre])
                have hlt : si.1.nActive + nF < nS := by
                  obtain ⟨-, -, -, -, hb⟩ := hInv
                  omega
                obtain ⟨st4, i4, heq, hInv4, hmap4, hact4, hint4, herr4, hfree⟩ :=
                  launchLine_spec nS nF si.1 line hInv2 hlt
                cases hla : launchLine si.1 line with
                | error f =>
                  rw [heq] at hla
                  cases hla
                | ok st4i =>
                  rw [heq] at hla
                  cases hla
                  simp only [ho, hre, heq] at h
                  cases h
                  refine ⟨hInv4, by rw [hmap4, hmap2], ?_, ?_, ?_, ?_, ?_⟩
                  · intro x hx
                    simp at hx
                    rcases hx with rfl | rfl
                    · exact ⟨hInv2, hmap2⟩
                    · exact ⟨hInv4, by rw [hmap4, hmap2]⟩
                  · intro e he
                    simp at he
                    rcases he with rfl | rfl | rfl
                    · simp
                    · simp
                    · show GoodLaunch nS nF (st.slots.map MSlot.faulted)
                        (.launch i4 line si.1)
                      exact ⟨hInv2, hlt, hmap2, hfree⟩
                  · rw [herr4, herr2]
                    simp [failingReap]
                  · simp [noReadAfter, failingReap, isRead, isLaunch]
                  · simp [isIntr, isRead, isLaunch]
          · rw [if_neg h5] at h
            obtain ⟨st4, i4, heq, hInv4, hmap4, hact4, hint4, herr4, hfree⟩ :=
              launchLine_spec nS nF st line hInv (by omega)
            cases hla : launchLine st line with
            | error f =>
              rw [heq] at hla
              cases hla
            | ok st4i =>
              rw [heq] at hla
              cases hla
              simp only [heq] at h
              cases h
              refine ⟨hInv4, hmap4, ?_, ?_, ?_, ?_, ?_⟩
              · intro x hx
                simp at hx
                subst hx
                exact ⟨hInv4, hmap4⟩
              · intro e he
                simp at he
                rcases he with rfl | rfl
                · simp
                · show GoodLaunch nS nF (st.slots.map MSlot.faulted)
                    (.launch i4 line st)
                  exact ⟨hInv, by omega, rfl, hfree⟩
              · rw [herr4]
                simp [failingReap]
              · simp [noReadAfter, failingReap, isRead, isLaunch]
              · simp [isIntr, isRead, isLaunch]

theorem iterStep_interrupted (k : Bool) (nS nF : Nat) (line : List Char)
    (st : LoopSt) (o : IterOrc) (hi : st.interrupted = true) :
    ∃ out, iterStep k nS nF line st o = .inl out ∧
      out.final.slots = st.slots ∧ out.term = .ok ∧
      out.trace.all (fun e => !(isRead e) && !(isLaunch e)) = true := by
  by_cases h1 : o.i1
  · exact ⟨⟨⟨st.slots, st.nActive, st.errorEncountered, true, st.nextPid⟩,
            [.intr],
            [⟨st.slots, st.nActive, st.errorEncountered, true, st.nextPid⟩],
            .ok⟩,
           by simp [iterStep, h1], rfl, rfl, by simp [isRead, isLaunch]⟩
  · exact ⟨⟨st, [], [], .ok⟩, by simp [iterStep, h1, hi], rfl, rfl, by simp⟩

theorem iterStep_error_halt (nS nF : Nat) (line : List Char)
    (st : LoopSt) (o : IterOrc) (he : st.errorEncountered = true) :
    ∃ out, iterStep false nS nF line st o = .inl out ∧ out.term = .ok ∧
      out.trace.all (fun e => !(isRead e)) = true := by
  by_cases h1 : o.i1
  · exact ⟨⟨⟨st.slots, st.nActive, st.errorEncountered, true, st.nextPid⟩,
            [.intr],
            [⟨st.slots, st.nActive, st.errorEncountered, true, st.nextPid⟩],
            .ok⟩,
           by simp [iterStep, h1], rfl, by simp [isRead]⟩
  · by_cases h2 : st.interrupted
    · exact ⟨⟨st, [], [], .ok⟩, by simp [iterStep, h1, h2], rfl, by simp⟩
    · exact ⟨⟨st, [], [], .ok⟩, by simp [iterStep, h1, h2, he], rfl, by simp⟩

/-! ## The loop lemmas -/

theorem mainLoop_spec (k : Bool) (nS nF : Nat) :
    ∀ (input : List (List Char)) (st : LoopSt) (orcs : List IterOrc),
    LoopInv nS nF st →
    LoopInv nS nF (mainLoop k nS nF input st orcs).final ∧
    (mainLoop k nS nF input st orcs).final.slots.map MSlot.faulted
      = st.slots.map MSlot.faulted ∧
    (∀ x ∈ (mainLoop k nS nF input st orcs).snaps, LoopInv nS nF x ∧
      x.slots.map MSlot.faulted = st.slots.map MSlot.faulted) ∧
    (∀ e ∈ (mainLoop k nS nF input st orcs).trace,
      GoodLaunch nS nF (st.slots.map MSlot.faulted) e) := by
  intro input
  induction input with
  | nil =>
    intro st orcs hInv
    by_cases h1 : (orcHead orcs).1.i1 <;>
      simp only [mainLoop, h1, if_true, if_false, Bool.false_eq_true]
    · refine ⟨hInv, by simp, ?_, ?_⟩
      · intro x hx
        simp at hx
        subst hx
        exact ⟨hInv, by simp⟩
      · intro e he
        simp at he
        subst he
        simp
    · refine ⟨hInv, by simp, ?_, ?_⟩
      · intro x hx
        simp at hx
      · intro e he
        simp at he
  | cons line input2 ih =>
    intro st orcs hInv
    cases hstep : iterStep k nS nF line st (orcHead orcs).1 with
    | inl out =>
      have hout := iterStep_inl_spec k nS nF line st (orcHead orcs).1 hInv out hstep
      simp only [mainLoop, hstep]
      exact ⟨hout.1, hout.2.1, hout.2.2.1, hout.2.2.2.1⟩
    | inr r =>
      obtain ⟨hInvR, hmapR, hsnapR, htrR, -, -, -⟩ :=
        iterStep_inr_spec k nS nF line st (orcHead orcs).1 hInv r hstep
      obtain ⟨hIf, hMf, hSf, hTf⟩ := ih r.1 (orcHead orcs).2 hInvR
      simp only [mainLoop, hstep]
      refine ⟨hIf, by rw [hMf, hmapR], ?_, ?_⟩
      · intro x hx
        rcases List.mem_append.mp hx with hm | hm
        · exact hsnapR x hm
        · obtain ⟨ha, hb⟩ := hSf x hm
          exact ⟨ha, by rw [hb, hmapR]⟩
      · intro e he
        rcases List.mem_append.mp he with hm | hm
        · exact htrR e hm
        · have hg := hTf e hm
          rwa [hmapR] at hg

theorem mainLoop_error (k : Bool) (nS nF : Nat) :
    ∀ (input : List (List Char)) (st : LoopSt) (orcs : List IterOrc),
    LoopInv nS nF st →
    (mainLoop k nS nF input st orcs).final.errorEncountered
      = (st.errorEncountered
          || (mainLoop k nS nF input st orcs).trace.any failingReap) := by
  intro input
  induction input with
  | nil =>
    intro st orcs hInv
    by_cases h1 : (orcHead orcs).1.i1 <;>
      simp [mainLoop, h1, failingReap]
  | cons line input2 ih =>
    intro st orcs hInv
    cases hstep : iterStep k nS nF line st (orcHead orcs).1 with
    | inl out =>
      have hout := iterStep_inl_spec k nS nF line st (orcHead orcs).1 hInv out hstep
      simp only [mainLoop, hstep]
      exact hout.2.2.2.2.1
    | inr r =>
      obtain ⟨hInvR, -, -, -, herrR, -, -⟩ :=
        iterStep_inr_spec k nS nF line st (orcHead orcs).1 hInv r hstep
      have hrec := ih r.1 (orcHead orcs).2 hInvR
      simp only [mainLoop, hstep]
      show (mainLoop k nS nF input2 r.1 (orcHead orcs).2).final.errorEncountered
        = (st.errorEncountered
            || (r.2.1 ++ (mainLoop k nS nF input2 r.1 (orcHead orcs).2).trace).any
                 failingReap)
      rw [hrec, herrR, List.any_append]
      cases st.errorEncountered <;> cases r.2.1.any failingReap <;> simp

theorem mainLoop_error_trace (nS nF : Nat) (input : List (List Char))
    (st : LoopSt) (orcs : List IterOrc) (he : st.errorEncountered = true) :
    ((mainLoop false nS nF input st orcs).trace.all
      (fun e => !(isRead e))) = true := by
  cases input with
  | nil =>
    by_cases h1 : (orcHead orcs).1.i1 <;>
      simp [mainLoop, h1, isRead]
  | cons line input2 =>
    obtain ⟨out, hstep, -, htr⟩ :=
      iterStep_error_halt nS nF line st (orcHead orcs).1 he
    simp only [mainLoop, hstep]
    exact htr

theorem mainLoop_noReadFail (nS nF : Nat) :
    ∀ (input : List (List Char)) (st : LoopSt) (orcs : List IterOrc),
    LoopInv nS nF st →
    noReadAfter failingReap isRead
      (mainLoop false nS nF input st orcs).trace = true := by
  intro input
  induction input with
  | nil =>
    intro st orcs hInv
    by_cases h1 : (orcHead orcs).1.i1 <;>
      simp [mainLoop, h1, noReadAfter, failingReap]
  | cons line input2 ih =>
    intro st orcs hInv
    cases hstep : iterStep false nS nF line st (orcHead orcs).1 with
    | inl out =>
      have hout := iterStep_inl_spec false nS nF line st (orcHead orcs).1 hInv out hstep
      simp only [mainLoop, hstep]
      exact hout.2.2.2.2.2.1
    | inr r =>
      obtain ⟨hInvR, -, -, -, herrR, hnra, -⟩ :=
        iterStep_inr_spec false nS nF line st (orcHead orcs).1 hInv r hstep
      simp only [mainLoop, hstep]
      show noReadAfter failingReap isRead
        (r.2.1 ++ (mainLoop false nS nF input2 r.1 (orcHead orcs).2).trace) = true
      refine noReadAfter_append _ _ _ _ hnra (ih r.1 (orcHead orcs).2 hInvR) ?_
      intro hany
      have herr : r.1.errorEncountered = true := by
        rw [herrR, hany]
        simp
      exact mainLoop_error_trace nS nF input2 r.1 (orcHead orcs).2 herr

theorem mainLoop_intrLast (k : Bool) (nS nF : Nat) :
    ∀ (input : List (List Char)) (st : LoopSt) (orcs : List IterOrc),
    LoopInv nS nF st →
    noReadAfter isIntr (fun e => isRead e || isLaunch e)
      (mainLoop k nS nF input st orcs).trace = true := by
  intro input
  induction input with
  | nil =>
    intro st orcs hInv
    by_cases h1 : (orcHead orcs).1.i1 <;>
      simp [mainLoop, h1, noReadAfter, isIntr, isRead, isLaunch]
  | cons line input2 ih =>
    intro st orcs hInv
    cases hstep : iterStep k nS nF line st (orcHead orcs).1 with
    | inl out =>
      have hout := iterStep_inl_spec k nS nF line st (orcHead orcs).1 hInv out hstep
      simp only [mainLoop, hstep]
      exact hout.2.2.2.2.2.2
    | inr r =>
      obtain ⟨hInvR, -, -, -, -, -, hni⟩ :=
        iterStep_inr_spec k nS nF line st (orcHead orcs).1 hInv r hstep
      simp only [mainLoop, hstep]
      show noReadAfter isIntr (fun e => isRead e || isLaunch e)
        (r.2.1 ++ (mainLoop k nS nF input2 r.1 (orcHead orcs).2).trace) = true
      refine noReadAfter_append _ _ _ _ (noReadAfter_of_all _ _ _ hni)
        (ih r.1 (orcHead orcs).2 hInvR) ?_
      intro hany
      exfalso
      obtain ⟨e, hmem, hpe⟩ := List.any_eq_true.mp hany
      have := List.all_eq_true.mp hni e hmem
      rw [hpe] at this
      cases this

theorem mainLoop_interrupted (k : Bool) (nS nF : Nat)
    (input : List (List Char)) (st : LoopSt) (orcs : List IterOrc)
    (hi : st.interrupted = true) :
    (mainLoop k nS nF input st orcs).final.slots = st.slots ∧
    ((mainLoop k nS nF input st orcs).trace.all
      (fun e => !(isRead e) && !(isLaunch e))) = true := by
  cases input with
  | nil =>
    by_cases h1 : (orcHead orcs).1.i1 <;>
      simp [mainLoop, h1, isRead, isLaunch]
  | cons line input2 =>
    obtain ⟨out, hstep, hsl, -, htr⟩ :=
      iterStep_interrupted k nS nF line st (orcHead orcs).1 hi
    simp only [mainLoop, hstep]
    exact ⟨hsl, htr⟩

/-! ## The drain loop -/

theorem clearPid_map_faulted (l : List MSlot) (pid : Nat) :
    (l.map (fun s => if s.cpid = some pid then clearSlotFn s else s)).map
      MSlot.faulted = l.map MSlot.faulted := by
  induction l with
  | nil => rfl
  | cons a rest ih =>
    by_cases ha : a.cpid = some pid <;>
      simp [ha, clearSlotFn, ih] <;>
      intro b hb <;>
      by_cases hb2 : b.cpid = some pid <;>
      simp [hb2]

theorem clearPid_faultedCount (l : List MSlot) (pid : Nat) :
    faultedCount (l.map (fun s => if s.cpid = some pid then clearSlotFn s else s))
      = faultedCount l := by
  induction l with
  | nil => rfl
  | cons a rest ih =>
    by_cases ha : a.cpid = some pid <;>
      simp [faultedCount, List.countP_cons, ha, clearSlotFn] at ih ⊢ <;>
      omega

theorem clearPid_busy_le (l : List MSlot) (pid : Nat) :
    busyCount (l.map (fun s => if s.cpid = some pid then clearSlotFn s else s))
      ≤ busyCount l := by
  induction l with
  | nil => exact Nat.le_refl _
  | cons a rest ih =>
    by_cases ha : a.cpid = some pid <;>
      simp [busyCount, List.countP_cons, ha, clearSlotFn] at ih ⊢ <;>
      omega

theorem clearPid_busyCount (l : List MSlot) (pid : Nat) :
    busyCount (l.map (fun s => if s.cpid = some pid then clearSlotFn s else s))
      + l.countP (fun s => decide (s.cpid = some pid))
      = busyCount l := by
  induction l with
  | nil => rfl
  | cons a rest ih =>
    by_cases ha : a.cpid = some pid
    · have hsome : a.cpid.isSome = true := by simp [ha]
      simp [busyCount, List.countP_cons, ha, clearSlotFn, hsome] at ih ⊢
      omega
    · simp [busyCount, List.countP_cons, ha, clearSlotFn] at ih ⊢
      omega

theorem clearPid_SlotsInv (l : List MSlot) (pid : Nat) (h : SlotsInv l) :
    SlotsInv (l.map (fun s => if s.cpid = some pid then clearSlotFn s else s)) := by
  intro x hx hfx
  obtain ⟨s, hs, hxs⟩ := List.mem_map.mp hx
  by_cases hc : s.cpid = some pid
  · rw [if_pos hc] at hxs
    subst hxs
    rfl
  · rw [if_neg hc] at hxs
    subst hxs
    exact h s hs hfx

theorem reapDrain_winv (nS nF : Nat) (st : LoopSt) (pid : Nat) (w : Status)
    (h : WInv nS nF st) :
    WInv nS nF (reapDrain st pid w) ∧
    (reapDrain st pid w).slots.map MSlot.faulted = st.slots.map MSlot.faulted ∧
    (reapDrain st pid w).errorEncountered = (st.errorEncountered || statusFail w) ∧
    (reapDrain st pid w).nActive = st.nActive - 1 := by
  obtain ⟨hlen, hsl, hfc, hbound, hbusy⟩ := h
  refine ⟨⟨?_, ?_, ?_, ?_, ?_⟩, clearPid_map_faulted st.slots pid, rfl, rfl⟩
  · simpa [reapDrain] using hlen
  · exact clearPid_SlotsInv st.slots pid hsl
  · show faultedCount (st.slots.map
      (fun s => if s.cpid = some pid then clearSlotFn s else s)) = nF
    rw [clearPid_faultedCount]
    exact hfc
  · show st.nActive - 1 + nF ≤ nS
    omega
  · show busyCount (st.slots.map
      (fun s => if s.cpid = some pid then clearSlotFn s else s)) + nF ≤ nS
    have := clearPid_busy_le st.slots pid
    omega

theorem drainLoop_spec (nS nF : Nat) :
    ∀ (evs : List (Nat × Status)) (st : LoopSt), WInv nS nF st →
    WInv nS nF (drainLoop evs st).final ∧
    (drainLoop evs st).final.slots.map MSlot.faulted
      = st.slots.map MSlot.faulted ∧
    (∀ x ∈ (drainLoop evs st).snaps, WInv nS nF x ∧
      x.slots.map MSlot.faulted = st.slots.map MSlot.faulted) ∧
    (drainLoop evs st).final.errorEncountered
      = (st.errorEncountered || (drainLoop evs st).trace.any failingReap) ∧
    ((drainLoop evs st).term = .ok → (drainLoop evs st).final.nActive = 0) ∧
    ((drainLoop evs st).trace.all
      (fun e => !(isRead e) && !(isLaunch e) && !(isIntr e))) = true := by
  intro evs
  induction evs with
  | nil =>
    intro st hW
    cases hact : st.nActive with
    | zero =>
      simp only [drainLoop, hact]
      refine ⟨hW, by simp, by simp, by simp, by simp, by simp⟩
    | succ n =>
      simp only [drainLoop, hact]
      refine ⟨hW, by simp, by simp, by simp, by simp, by simp⟩
  | cons pw evs2 ih =>
    intro st hW
    cases hact : st.nActive with
    | zero =>
      simp only [drainLoop, hact]
      refine ⟨hW, by simp, by simp, by simp, by simp, by simp⟩
    | succ n =>
      obtain ⟨hW2, hmap2, herr2, hact2⟩ := reapDrain_winv nS nF st pw.1 pw.2 hW
      obtain ⟨hWf, hMf, hSf, hEf, hAf, hTf⟩ := ih (reapDrain st pw.1 pw.2) hW2
      simp only [drainLoop, hact]
      refine ⟨hWf, by rw [hMf, hmap2], ?_, ?_, ?_, ?_⟩
      · intro x hx
        simp only [List.mem_cons] at hx
        rcases hx with rfl | hm
        · exact ⟨hW2, hmap2⟩
        · obtain ⟨ha, hb⟩ := hSf x hm
          exact ⟨ha, by rw [hb, hmap2]⟩
      · show (drainLoop evs2 (reapDrain st pw.1 pw.2)).final.errorEncountered
          = (st.errorEncountered
              || (Ev.reapDrainEv pw.1 pw.2
                    :: (drainLoop evs2 (reapDrain st pw.1 pw.2)).trace).any
                   failingReap)
        rw [hEf, herr2]
        simp only [List.any_cons, failingReap]
        cases st.errorEncountered <;> cases statusFail pw.2 <;> simp
      · intro hterm
        exact hAf hterm
      · rw [List.all_cons, hTf]
        simp [isRead, isLaunch, isIntr]

theorem drainLoop_complete :
    ∀ (evs : List (Nat × Status)) (st : LoopSt),
    busyCount st.slots = st.nActive → drainValid evs st = true →
    (drainLoop evs st).term = .ok →
    (drainLoop evs st).final.nActive = 0 ∧
    busyCount (drainLoop evs st).final.slots = 0 := by
  intro evs
  induction evs with
  | nil =>
    intro st hbusy hvalid hterm
    cases hact : st.nActive with
    | zero =>
      have hfin : drainLoop [] st = ⟨st, [], [], .ok⟩ := by
        simp only [drainLoop, hact]
      rw [hfin]
      exact ⟨hact, by rw [hbusy, hact]⟩
    | succ n =>
      rw [show drainLoop [] st = ⟨st, [], [], .stuck⟩ by
            simp only [drainLoop, hact]] at hterm
      cases hterm
  | cons pw evs2 ih =>
    intro st hbusy hvalid hterm
    cases hact : st.nActive with
    | zero =>
      have hfin : drainLoop (pw :: evs2) st = ⟨st, [], [], .ok⟩ := by
        simp only [drainLoop, hact]
      rw [hfin]
      exact ⟨hact, by rw [hbusy, hact]⟩
    | succ n =>
      simp only [drainValid, hact, Bool.and_eq_true, decide_eq_true_eq] at hvalid
      obtain ⟨hone, hvalid2⟩ := hvalid
      have hbusy2 : busyCount (reapDrain st pw.1 pw.2).slots
          = (reapDrain st pw.1 pw.2).nActive := by
        show busyCount (st.slots.map
          (fun s => if s.cpid = some pw.1 then clearSlotFn s else s))
          = st.nActive - 1
        have hcp := clearPid_busyCount st.slots pw.1
        rw [hone] at hcp
        omega
      have hfin : drainLoop (pw :: evs2) st
          = ⟨(drainLoop evs2 (reapDrain st pw.1 pw.2)).final,
             .reapDrainEv pw.1 pw.2
               :: (drainLoop evs2 (reapDrain st pw.1 pw.2)).trace,
             reapDrain st pw.1 pw.2
               :: (drainLoop evs2 (reapDrain st pw.1 pw.2)).snaps,
             (drainLoop evs2 (reapDrain st pw.1 pw.2)).term⟩ := by
        simp only [drainLoop, hact]
      rw [hfin] at hterm ⊢
      exact ih (reapDrain st pw.1 pw.2) hbusy2 hvalid2 hterm

/-! ## The initial state of a run -/

theorem mkSlot_clean (home : List Char) (cmdArgs : List (List Char)) (n : Nat)
    (hname wdRaw : List Char) :
    ∀ x ∈ mkSlot home cmdArgs n hname wdRaw, x.cpid = none ∧ x.arg = none := by
  intro x hx
  simp only [mkSlot, List.mem_replicate] at hx
  rw [hx.2]
  exact ⟨rfl, rfl⟩

theorem parseEntry_more_clean (home : List Char) (cmdArgs : List (List Char))
    (c : List Char) (s : List MSlot) (rest : List Char)
    (h : parseEntry home cmdArgs c = .more s rest) :
    ∀ x ∈ s, x.cpid = none ∧ x.arg = none := by
  unfold parseEntry at h
  cases hh : hostPhase (numPhase (skipSpaces c)).2 with
  | error e => simp only [hh] at h; cases h
  | ok hr =>
    simp only [hh] at h
    cases hw : skipSpaces (wdPhase hr.2).2 with
    | nil => simp only [hw] at h; cases h
    | cons ch c5 =>
      simp only [hw] at h
      by_cases hch : ch = ','
      · rw [if_pos hch] at h
        by_cases hc5 : c5 = []
        · rw [if_pos hc5] at h; cases h
        · rw [if_neg hc5] at h
          cases h
          exact mkSlot_clean home cmdArgs _ _ _
      · rw [if_neg hch] at h; cases h

theorem parseEntry_done_clean (home : List Char) (cmdArgs : List (List Char))
    (c : List Char) (s : List MSlot)
    (h : parseEntry home cmdArgs c = .done s) :
    ∀ x ∈ s, x.cpid = none ∧ x.arg = none := by
  unfold parseEntry at h
  cases hh : hostPhase (numPhase (skipSpaces c)).2 with
  | error e => simp only [hh] at h; cases h
  | ok hr =>
    simp only [hh] at h
    cases hw : skipSpaces (wdPhase hr.2).2 with
    | nil =>
      simp only [hw] at h
      cases h
      exact mkSlot_clean home cmdArgs _ _ _
    | cons ch c5 =>
      simp only [hw] at h
      by_cases hch : ch = ','
      · rw [if_pos hch] at h
        by_cases hc5 : c5 = []
        · rw [if_pos hc5] at h; cases h
        · rw [if_neg hc5] at h; cases h
      · rw [if_neg hch] at h; cases h

theorem parseLoop_clean (home : List Char) (cmdArgs : List (List Char)) :
    ∀ (fuel : Nat) (c : List Char) (l : List MSlot),
    parseLoop home cmdArgs fuel c = .ok l →
    ∀ x ∈ l, x.cpid = none ∧ x.arg = none := by
  intro fuel
  induction fuel with
  | zero => intro c l h; simp [parseLoop] at h
  | succ n ih =>
    intro c l h
    cases c with
    | nil =>
      simp only [parseLoop] at h
      cases h
      intro x hx
      simp at hx
    | cons cc cs =>
      unfold parseLoop at h
      cases hpe : parseEntry home cmdArgs (cc :: cs) with
      | err e => simp only [hpe] at h; cases h
      | done s0 =>
        simp only [hpe] at h
        cases h
        exact parseEntry_done_clean home cmdArgs _ _ hpe
      | more s0 rest =>
        simp only [hpe] at h
        cases hrec : parseLoop home cmdArgs n rest with
        | error e => simp only [hrec] at h; cases h
        | ok l2 =>
          simp only [hrec] at h
          cases h
          intro x hx
          rcases List.mem_append.mp hx with hm | hm
          · exact parseEntry_more_clean home cmdArgs _ _ _ hpe x hm
          · exact ih rest l2 hrec x hm

theorem setup_slots_clean (home : List Char) (cmdArgs : List (List Char))
    (spec : Option (List Char)) (ncpus : Nat) (l : List MSlot)
    (h : setup_slots home cmdArgs spec ncpus = .ok l) :
    ∀ x ∈ l, x.cpid = none ∧ x.arg = none := by
  cases spec with
  | none =>
    simp only [setup_slots] at h
    cases h
    intro x hx
    rw [List.mem_replicate] at hx
    rw [hx.2]
    exact ⟨rfl, rfl⟩
  | some s => exact parseLoop_clean home cmdArgs (s.length + 1) s l h

theorem test_slots_go_clean (reach : List Char → Bool) :
    ∀ (rest done : List MSlot),
    (∀ s ∈ done, s.cpid = none ∧ s.arg = none) →
    (∀ s ∈ rest, s.cpid = none ∧ s.arg = none) →
    ∀ s ∈ test_slots_go reach done rest, s.cpid = none ∧ s.arg = none := by
  intro rest
  induction rest with
  | nil =>
    intro done hd _ s hs
    simp only [test_slots_go] at hs
    exact hd s hs
  | cons a rest2 ih =>
    intro done hd hr s hs
    have hr2 : ∀ t ∈ rest2, t.cpid = none ∧ t.arg = none :=
      fun t ht => hr t (List.mem_cons_of_mem _ ht)
    have hra : a.cpid = none ∧ a.arg = none := hr a (List.mem_cons_self _ _)
    unfold test_slots_go at hs
    cases hh : a.hostname with
    | none =>
      simp only [hh] at hs
      refine ih _ ?_ hr2 s hs
      intro u hu
      rcases List.mem_append.mp hu with hm | hm
      · exact hd u hm
      · rw [List.mem_singleton] at hm
        subst hm
        exact hra
    | some h2 =>
      simp only [hh] at hs
      by_cases hloc : h2 = localhostStr
      · rw [if_pos hloc] at hs
        refine ih _ ?_ hr2 s hs
        intro u hu
        rcases List.mem_append.mp hu with hm | hm
        · exact hd u hm
        · rw [List.mem_singleton] at hm
          subst hm
          exact hra
      · rw [if_neg hloc] at hs
        cases hfind : List.find? (fun t => t.hostname = some h2) done with
        | some t =>
          simp only [hfind] at hs
          refine ih _ ?_ hr2 s hs
          intro u hu
          rcases List.mem_append.mp hu with hm | hm
          · exact hd u hm
          · rw [List.mem_singleton] at hm
            subst hm
            exact hra
        | none =>
          simp only [hfind] at hs
          by_cases hre : reach h2
          · rw [if_pos hre] at hs
            refine ih _ ?_ hr2 s hs
            intro u hu
            rcases List.mem_append.mp hu with hm | hm
            · exact hd u hm
            · rw [List.mem_singleton] at hm
              subst hm
              exact hra
          · rw [if_neg hre] at hs
            refine ih _ ?_ hr2 s hs
            intro u hu
            rcases List.mem_append.mp hu with hm | hm
            · exact hd u hm
            · rw [List.mem_singleton] at hm
              subst hm
              exact hra

theorem test_slots_clean (reach : List Char → Bool) (slots : List MSlot)
    (h : ∀ s ∈ slots, s.cpid = none ∧ s.arg = none) :
    ∀ s ∈ test_slots reach slots, s.cpid = none ∧ s.arg = none :=
  test_slots_go_clean reach slots [] (by simp) h

theorem init_LoopInv (slots1 : List MSlot) (h : ∀ s ∈ slots1, s.cpid = none) :
    LoopInv slots1.length (faultedCount slots1) ⟨slots1, 0, false, false, 1⟩ := by
  refine ⟨rfl, ?_, ?_, rfl, ?_⟩
  · show busyCount slots1 = 0
    rw [busyCount, List.countP_eq_zero]
    intro a ha
    simp [h a ha]
  · intro s hs _
    exact h s hs
  · show 0 + faultedCount slots1 ≤ slots1.length
    simpa [faultedCount] using List.countP_le_length (fun s : MSlot => s.faulted)

/-! ## Whole-run lemmas -/

theorem noReadAfter_of_all_not_q (p q : Ev → Bool) (l : List Ev)
    (h : l.all (fun e => !(q e)) = true) : noReadAfter p q l = true := by
  induction l with
  | nil => rfl
  | cons e l ih =>
    simp only [List.all_cons, Bool.and_eq_true] at h
    simp only [noReadAfter, Bool.and_eq_true]
    constructor
    · have : l.all (fun x => !(q x)) = true := h.2
      simp [this]
    · exact ih h.2

theorem drainLoop_term : ∀ (evs : List (Nat × Status)) (st : LoopSt),
    (drainLoop evs st).term = .ok ∨ (drainLoop evs st).term = .stuck := by
  intro evs
  induction evs with
  | nil =>
    intro st
    cases hact : st.nActive with
    | zero => left; simp [drainLoop, hact]
    | succ n => right; simp [drainLoop, hact]
  | cons pw evs2 ih =>
    intro st
    cases hact : st.nActive with
    | zero => left; simp [drainLoop, hact]
    | succ n =>
      have hfin : (drainLoop (pw :: evs2) st).term
          = (drainLoop evs2 (reapDrain st pw.1 pw.2)).term := by
        simp only [drainLoop, hact]
      rw [hfin]
      exact ih (reapDrain st pw.1 pw.2)

theorem WInv_of_LoopInv (nS nF : Nat) (st : LoopSt) (h : LoopInv nS nF st) :
    WInv nS nF st := by
  obtain ⟨h1, h2, h3, h4, h5⟩ := h
  exact ⟨h1, h3, h4, h5, by omega⟩

theorem GoodLaunch_of_not_launch (nS nF : Nat) (fm : List Bool) (e : Ev)
    (he : isLaunch e = false) : GoodLaunch nS nF fm e := by
  cases e <;> simp [GoodLaunch] <;> simp [isLaunch] at he

theorem runAfterSetup_facts (k : Bool) (slots1 : List MSlot)
    (input : List (List Char)) (sched : Sched)
    (hclean : ∀ s ∈ slots1, s.cpid = none) :
    RunFacts k (runAfterSetup k slots1 input sched) := by
  by_cases hz : slots1.length = 0
  · have hP : runAfterSetup k slots1 input sched
        = ⟨.procLimit, [], [], slots1, none⟩ := by
      unfold runAfterSetup
      rw [if_pos hz]
    rw [hP]
    exact ⟨by simp, by simp, by intro _; rfl, rfl,
           by intro hout; rcases hout with h | h <;> cases h⟩
  · have hInv0 : LoopInv slots1.length (faultedCount slots1)
        ⟨slots1, 0, false, false, 1⟩ := init_LoopInv slots1 hclean
    have convL : ∀ x : LoopSt,
        LoopInv slots1.length (faultedCount slots1) x →
        x.slots.map MSlot.faulted = slots1.map MSlot.faulted →
        (x.slots.length = slots1.length ∧ SlotsInv x.slots ∧
         x.slots.map MSlot.faulted = slots1.map MSlot.faulted ∧
         faultedCount x.slots = faultedCount slots1 ∧
         x.nActive + faultedCount slots1 ≤ slots1.length ∧
         busyCount x.slots + faultedCount slots1 ≤ slots1.length) := by
      intro x hx hmx
      obtain ⟨h1, h2, h3, h4, h5⟩ := hx
      exact ⟨h1, h3, hmx, h4, h5, by omega⟩
    have convW : ∀ x : LoopSt,
        WInv slots1.length (faultedCount slots1) x →
        x.slots.map MSlot.faulted = slots1.map MSlot.faulted →
        (x.slots.length = slots1.length ∧ SlotsInv x.slots ∧
         x.slots.map MSlot.faulted = slots1.map MSlot.faulted ∧
         faultedCount x.slots = faultedCount slots1 ∧
         x.nActive + faultedCount slots1 ≤ slots1.length ∧
         busyCount x.slots + faultedCount slots1 ≤ slots1.length) := by
      intro x hx hmx
      obtain ⟨h1, h2, h3, h4, h5⟩ := hx
      exact ⟨h1, h2, hmx, h3, h4, h5⟩
    obtain ⟨hIf, hMf, hSf, hTf⟩ :=
      mainLoop_spec k slots1.length (faultedCount slots1) input
        ⟨slots1, 0, false, false, 1⟩ sched.iters hInv0
    have hErr := mainLoop_error k slots1.length (faultedCount slots1) input
        ⟨slots1, 0, false, false, 1⟩ sched.iters hInv0
    have hIL := mainLoop_intrLast k slots1.length (faultedCount slots1) input
        ⟨slots1, 0, false, false, 1⟩ sched.iters hInv0
    have hNR : k = false →
        noReadAfter failingReap isRead
          (mainLoop k slots1.length (faultedCount slots1) input
            ⟨slots1, 0, false, false, 1⟩ sched.iters).trace = true := by
      intro hk
      subst hk
      exact mainLoop_noReadFail slots1.length (faultedCount slots1) input
        ⟨slots1, 0, false, false, 1⟩ sched.iters hInv0
    have hun : runAfterSetup k slots1 input sched =
        (match (mainLoop k slots1.length (faultedCount slots1) input
            ⟨slots1, 0, false, false, 1⟩ sched.iters).term with
         | .fatal f =>
           (⟨.fatalErr f,
             (mainLoop k slots1.length (faultedCount slots1) input
               ⟨slots1, 0, false, false, 1⟩ sched.iters).trace,
             ⟨slots1, 0, false, false, 1⟩
               :: (mainLoop k slots1.length (faultedCount slots1) input
                    ⟨slots1, 0, false, false, 1⟩ sched.iters).snaps,
             slots1,
             some (mainLoop k slots1.length (faultedCount slots1) input
               ⟨slots1, 0, false, false, 1⟩ sched.iters).final⟩ : ProgOut)
         | .stuck =>
           ⟨.stuckRun,
            (mainLoop k slots1.length (faultedCount slots1) input
              ⟨slots1, 0, false, false, 1⟩ sched.iters).trace,
            ⟨slots1, 0, false, false, 1⟩
              :: (mainLoop k slots1.length (faultedCount slots1) input
                   ⟨slots1, 0, false, false, 1⟩ sched.iters).snaps,
            slots1,
            some (mainLoop k slots1.length (faultedCount slots1) input
              ⟨slots1, 0, false, false, 1⟩ sched.iters).final⟩
         | .ok =>
           match (drainLoop sched.drain
               (mainLoop k slots1.length (faultedCount slots1) input
                 ⟨slots1, 0, false, false, 1⟩ sched.iters).final).term with
           | .stuck =>
             ⟨.stuckRun,
              (mainLoop k slots1.length (faultedCount slots1) input
                ⟨slots1, 0, false, false, 1⟩ sched.iters).trace
                ++ (drainLoop sched.drain
                     (mainLoop k slots1.length (faultedCount slots1) input
                       ⟨slots1, 0, false, false, 1⟩ sched.iters).final).trace,
              ⟨slots1, 0, false, false, 1⟩
                :: ((mainLoop k slots1.length (faultedCount slots1) input
                      ⟨slots1, 0, false, false, 1⟩ sched.iters).snaps
                    ++ (drainLoop sched.drain
                         (mainLoop k slots1.length (faultedCount slots1) input
                           ⟨slots1, 0, false, false, 1⟩ sched.iters).final).snaps),
              slots1,
              some (drainLoop sched.drain
                (mainLoop k slots1.length (faultedCount slots1) input
                  ⟨slots1, 0, false, false, 1⟩ sched.iters).final).final⟩
           | _ =>
             ⟨if (drainLoop sched.drain
                   (mainLoop k slots1.length (faultedCount slots1) input
                     ⟨slots1, 0, false, false, 1⟩ sched.iters).final).final.errorEncountered
               then .jobFailure else .success,
              (mainLoop k slots1.length (faultedCount slots1) input
                ⟨slots1, 0, false, false, 1⟩ sched.iters).trace
                ++ (drainLoop sched.drain
                     (mainLoop k slots1.length (faultedCount slots1) input
                       ⟨slots1, 0, false, false, 1⟩ sched.iters).final).trace,
              ⟨slots1, 0, false, false, 1⟩
                :: ((mainLoop k slots1.length (faultedCount slots1) input
                      ⟨slots1, 0, false, false, 1⟩ sched.iters).snaps
                    ++ (drainLoop sched.drain
                         (mainLoop k slots1.length (faultedCount slots1) input
                           ⟨slots1, 0, false, false, 1⟩ sched.iters).final).snaps),
              slots1,
              some (drainLoop sched.drain
                (mainLoop k slots1.length (faultedCount slots1) input
                  ⟨slots1, 0, false, false, 1⟩ sched.iters).final).final⟩) := by
      unfold runAfterSetup
      rw [if_neg hz]
    rw [hun]
    have hDterm := drainLoop_term sched.drain
      (mainLoop k slots1.length (faultedCount slots1) input
        ⟨slots1, 0, false, false, 1⟩ sched.iters).final
    obtain ⟨hWd, hMd, hSd, hEd, hAd, hTd⟩ :=
      drainLoop_spec slots1.length (faultedCount slots1) sched.drain
        (mainLoop k slots1.length (faultedCount slots1) input
          ⟨slots1, 0, false, false, 1⟩ sched.iters).final
        (WInv_of_LoopInv _ _ _ hIf)
    generalize hM : mainLoop k slots1.length (faultedCount slots1) input
        ⟨slots1, 0, false, false, 1⟩ sched.iters = M
      at hIf hMf hSf hTf hErr hIL hNR hDterm hWd hMd hSd hEd hAd hTd ⊢
    generalize hD : drainLoop sched.drain M.final = D
      at hDterm hWd hMd hSd hEd hAd hTd ⊢
    have hdrainKinds : D.trace.all (fun e => !(isRead e)) = true ∧
        D.trace.all (fun e => !(isLaunch e)) = true ∧
        D.trace.all (fun e => !(isRead e || isLaunch e)) = true := by
      rw [List.all_eq_true] at hTd
      refine ⟨?_, ?_, ?_⟩ <;> rw [List.all_eq_true] <;> intro e he <;>
        have h3 := hTd e he <;>
        simp only [Bool.and_eq_true, Bool.not_eq_true'] at h3 <;>
        simp [h3.1.1, h3.1.2, h3.2]
    cases hterm : M.term with
    | fatal f =>
      refine ⟨?_, ?_, ?_, ?_, ?_⟩
      · intro x hx
        rcases List.mem_cons.mp hx with rfl | hm
        · exact convL _ hInv0 rfl
        · obtain ⟨ha, hb⟩ := hSf x hm
          exact convL x ha hb
      · intro e he
        exact hTf e he
      · intro hk
        exact hNR hk
      · exact hIL
      · intro hout
        rcases hout with h | h <;> cases h
    | stuck =>
      refine ⟨?_, ?_, ?_, ?_, ?_⟩
      · intro x hx
        rcases List.mem_cons.mp hx with rfl | hm
        · exact convL _ hInv0 rfl
        · obtain ⟨ha, hb⟩ := hSf x hm
          exact convL x ha hb
      · intro e he
        exact hTf e he
      · intro hk
        exact hNR hk
      · exact hIL
      · intro hout
        rcases hout with h | h <;> cases h
    | ok =>
      have hsnapAll : ∀ x ∈ ((⟨slots1, 0, false, false, 1⟩ : LoopSt)
          :: (M.snaps ++ D.snaps)),
          (x.slots.length = slots1.length ∧ SlotsInv x.slots ∧
           x.slots.map MSlot.faulted = slots1.map MSlot.faulted ∧
           faultedCount x.slots = faultedCount slots1 ∧
           x.nActive + faultedCount slots1 ≤ slots1.length ∧
           busyCount x.slots + faultedCount slots1 ≤ slots1.length) := by
        intro x hx
        rcases List.mem_cons.mp hx with rfl | hm
        · exact convL _ hInv0 rfl
        · rcases List.mem_append.mp hm with hm2 | hm2
          · obtain ⟨ha, hb⟩ := hSf x hm2
            exact convL x ha hb
          · obtain ⟨ha, hb⟩ := hSd x hm2
            exact convW x ha (by rw [hb, hMf])
      have htraceAll : ∀ e ∈ M.trace ++ D.trace,
          GoodLaunch slots1.length (faultedCount slots1)
            (slots1.map MSlot.faulted) e := by
        intro e he
        rcases List.mem_append.mp he with hm | hm
        · exact hTf e hm
        · have h3 := List.all_eq_true.mp hdrainKinds.2.1 e hm
          simp only [Bool.not_eq_true'] at h3
          exact GoodLaunch_of_not_launch _ _ _ e h3
      have hC : k = false → noReadAfter failingReap isRead
          (M.trace ++ D.trace) = true := by
        intro hk
        exact noReadAfter_append _ _ _ _ (hNR hk)
          (noReadAfter_of_all_not_q _ _ _ hdrainKinds.1)
          (fun _ => hdrainKinds.1)
      have hDfacts : noReadAfter isIntr (fun e => isRead e || isLaunch e)
          (M.trace ++ D.trace) = true :=
        noReadAfter_append _ _ _ _ hIL
          (noReadAfter_of_all_not_q _ _ _ hdrainKinds.2.2)
          (fun _ => hdrainKinds.2.2)
      have hany : (M.trace ++ D.trace).any failingReap
          = D.final.errorEncountered := by
        rw [List.any_append, hEd, hErr]
        simp
      cases hDt : D.term with
      | fatal f =>
        exfalso
        rcases hDterm with h | h <;> rw [hDt] at h <;> cases h
      | stuck =>
        refine ⟨hsnapAll, htraceAll, hC, hDfacts, ?_⟩
        intro hout
        rcases hout with h | h <;> cases h
      | ok =>
        refine ⟨hsnapAll, htraceAll, hC, hDfacts, ?_⟩
        intro _
        constructor
        · constructor
          · intro hjf
            by_cases herr : D.final.errorEncountered = true
            · rw [hany]
              exact herr
            · exfalso
              have hjf2 : (if D.final.errorEncountered then Outcome.jobFailure
                  else Outcome.success) = Outcome.jobFailure := hjf
              rw [if_neg herr] at hjf2
              cases hjf2
          · intro hany2
            have herr : D.final.errorEncountered = true := by
              rw [← hany]
              exact hany2
            show (if D.final.errorEncountered then Outcome.jobFailure
                else Outcome.success) = Outcome.jobFailure
            rw [if_pos herr]
        · intro f hf
          have hf2 : some D.final = some f := hf
          have hf3 : f = D.final := by
            injection hf2 with h4
            exact h4.symm
          subst hf3
          exact hAd hDt

theorem runProgram_facts (cfg : Config) (home : List Char)
    (cmdArgs : List (List Char)) (spec : Option (List Char)) (ncpus : Nat)
    (reach : List Char → Bool) (input : List (List Char)) (sched : Sched) :
    RunFacts cfg.continue_on_error
      (runProgram cfg home cmdArgs spec ncpus reach input sched) := by
  cases hsetup : setup_slots home cmdArgs spec ncpus with
  | error e =>
    have hP : runProgram cfg home cmdArgs spec ncpus reach input sched
        = ⟨.parseExit e, [], [], [], none⟩ := by
      unfold runProgram
      rw [hsetup]
    rw [hP]
    exact ⟨by simp, by simp, fun _ => rfl, rfl,
           by intro hout; rcases hout with h | h <;> cases h⟩
  | ok slots0 =>
    have hP : runProgram cfg home cmdArgs spec ncpus reach input sched
        = runAfterSetup cfg.continue_on_error
            (if cfg.skip_slot_test then slots0 else test_slots reach slots0)
            input sched := by
      unfold runProgram
      rw [hsetup]
    rw [hP]
    apply runAfterSetup_facts
    intro s hs
    by_cases hsk : cfg.skip_slot_test
    · rw [if_pos hsk] at hs
      exact (setup_slots_clean home cmdArgs spec ncpus slots0 hsetup s hs).1
    · rw [if_neg hsk] at hs
      exact (test_slots_clean reach slots0
        (setup_slots_clean home cmdArgs spec ncpus slots0 hsetup) s hs).1

/-- C1: at every snapshot of every run — for every input stream,
configuration, reachability oracle and schedule — the number of Busy
slots plus the number of Faulted slots never exceeds the table size, and
the `n_active` counter likewise respects `n_active ≤ n_slots −
n_faulted` (stated additively); moreover every launch happens from a
state in which the admission bound holds strictly — the dispatcher
blocks on `wait`, reaping one child, whenever
`n_active + n_faulted ≥ n_slots`, so a job is launched only once the
bound permits it. -/
theorem C1_admission_bound (cfg : Config) (home : List Char)
    (cmdArgs : List (List Char)) (spec : Option (List Char)) (ncpus : Nat)
    (reach : List Char → Bool) (input : List (List Char)) (sched : Sched) :
    (∀ x ∈ (runProgram cfg home cmdArgs spec ncpus reach input sched).snaps,
       busyCount x.slots + faultedCount x.slots ≤ x.slots.length ∧
       x.nActive + faultedCount x.slots ≤ x.slots.length) ∧
    (∀ e ∈ (runProgram cfg home cmdArgs spec ncpus reach input sched).trace,
       ∀ i line pre, e = .launch i line pre →
         pre.nActive + faultedCount pre.slots < pre.slots.length) := by
  obtain ⟨hA, hB, -, -, -⟩ :=
    runProgram_facts cfg home cmdArgs spec ncpus reach input sched
  constructor
  · intro x hx
    obtain ⟨h1, h2, h3, h4, h5, h6⟩ := hA x hx
    rw [h4, h1]
    exact ⟨h6, h5⟩
  · intro e he i line pre hlaunch
    have hg := hB e he
    rw [hlaunch] at hg
    obtain ⟨hInv, hlt, hfm, -⟩ := hg
    obtain ⟨hl1, -, -, hl4, -⟩ := hInv
    rw [hl4, hl1]
    exact hlt

/-- C4: a slot marked Faulted by the reachability probe never becomes
Busy: in every snapshot of the run that slot still has its faulted flag
set and no running child, and no launch event ever targets its index —
Faulted is terminal. -/
theorem C4_faulted_terminal (cfg : Config) (home : List Char)
    (cmdArgs : List (List Char)) (spec : Option (List Char)) (ncpus : Nat)
    (reach : List Char → Bool) (input : List (List Char)) (sched : Sched)
    (i : Nat) (s : MSlot)
    (hget : (runProgram cfg home cmdArgs spec ncpus reach input
              sched).table.get? i = some s)
    (hf : s.faulted = true) :
    (∀ x ∈ (runProgram cfg home cmdArgs spec ncpus reach input sched).snaps,
       ∃ t, x.slots.get? i = some t ∧ t.faulted = true ∧ t.cpid = none) ∧
    (∀ e ∈ (runProgram cfg home cmdArgs spec ncpus reach input sched).trace,
       ∀ line pre, e ≠ .launch i line pre) := by
  obtain ⟨hA, hB, -, -, -⟩ :=
    runProgram_facts cfg home cmdArgs spec ncpus reach input sched
  constructor
  · intro x hx
    obtain ⟨h1, h2, h3, -, -, -⟩ := hA x hx
    have hmap : (x.slots.map MSlot.faulted).get? i = some true := by
      rw [h3, List.get?_map, hget]
      simp [hf]
    rw [List.get?_map] at hmap
    cases hxt : x.slots.get? i with
    | none => rw [hxt] at hmap; cases hmap
    | some t =>
      rw [hxt] at hmap
      simp only [Option.map_some'] at hmap
      have htf : t.faulted = true := by injection hmap
      refine ⟨t, rfl, htf, h2 t ?_ htf⟩
      exact List.get?_mem hxt
  · intro e he line pre hlaunch
    have hg := hB e he
    rw [hlaunch] at hg
    obtain ⟨hInv, -, hfm, t, hgt, -, htf⟩ := hg
    have hmap : (pre.slots.map MSlot.faulted).get? i = some true := by
      rw [hfm, List.get?_map, hget]
      simp [hf]
    rw [List.get?_map, hgt] at hmap
    simp only [Option.map_some'] at hmap
    injection hmap with hmm
    rw [htf] at hmm
    cases hmm

/-- C3: under the default policy no input line is read (hence none is
admitted or launched) after any job has been reaped with nonzero exit
status; in both policies, when the process exits normally its status is
failure exactly when some reaped job exited nonzero, every running job
having been reaped (`n_active = 0`); and the drain loop runs every
already-Busy slot to completion, ending with no busy slots, for every
valid schedule. -/
theorem C3_error_policy (cfg : Config) (home : List Char)
    (cmdArgs : List (List Char)) (spec : Option (List Char)) (ncpus : Nat)
    (reach : List Char → Bool) (input : List (List Char)) (sched : Sched) :
    (cfg.continue_on_error = false →
       noReadAfter failingReap isRead
         (runProgram cfg home cmdArgs spec ncpus reach input sched).trace
         = true) ∧
    ((runProgram cfg home cmdArgs spec ncpus reach input sched).outcome
        = .success ∨
     (runProgram cfg home cmdArgs spec ncpus reach input sched).outcome
        = .jobFailure →
       ((runProgram cfg home cmdArgs spec ncpus reach input sched).outcome
           = .jobFailure ↔
        (runProgram cfg home cmdArgs spec ncpus reach input
          sched).trace.any failingReap = true) ∧
       (∀ f, (runProgram cfg home cmdArgs spec ncpus reach input
               sched).finalSt = some f → f.nActive = 0)) ∧
    (∀ (evs : List (Nat × Status)) (st : LoopSt),
       busyCount st.slots = st.nActive → drainValid evs st = true →
       (drainLoop evs st).term = .ok →
       (drainLoop evs st).final.nActive = 0 ∧
       busyCount (drainLoop evs st).final.slots = 0) := by
  obtain ⟨-, -, hC, -, hE⟩ :=
    runProgram_facts cfg home cmdArgs spec ncpus reach input sched
  exact ⟨hC, hE, drainLoop_complete⟩

/-- C7: in every run, after an interruption observation no further
input line is read and no further job is launched (the `.intr` trace
events are never followed by a read or a launch); a loop entered with
the `interrupted` flag set leaves the slot table — hence every running
child — untouched and performs no read or launch; and the second-stage
handler `really_interrupt` delivers the signal to exactly the pids of
the slots whose child is still running, and to no other slot. -/
theorem C7_two_stage_cancellation (cfg : Config) (home : List Char)
    (cmdArgs : List (List Char)) (spec : Option (List Char)) (ncpus : Nat)
    (reach : List Char → Bool) (input : List (List Char)) (sched : Sched) :
    noReadAfter isIntr (fun e => isRead e || isLaunch e)
      (runProgram cfg home cmdArgs spec ncpus reach input sched).trace
      = true ∧
    (∀ (k : Bool) (nS nF : Nat) (input2 : List (List Char)) (st : LoopSt)
       (orcs : List IterOrc), st.interrupted = true →
       (mainLoop k nS nF input2 st orcs).final.slots = st.slots ∧
       ((mainLoop k nS nF input2 st orcs).trace.all
         (fun e => !(isRead e) && !(isLaunch e))) = true) ∧
    (∀ (slots : List MSlot) (p : Nat),
       p ∈ really_interrupt slots ↔ ∃ s ∈ slots, s.cpid = some p) := by
  obtain ⟨-, -, -, hD, -⟩ :=
    runProgram_facts cfg home cmdArgs spec ncpus reach input sched
  refine ⟨hD, mainLoop_interrupted, ?_⟩
  intro slots p
  simp [really_interrupt, List.mem_filterMap]

/-- Witness for C1: the initial snapshot of a one-slot local run
respects both admission bounds. -/
theorem C1_admission_bound_witness :
    busyCount (⟨[localSlot []], 0, false, false, 1⟩ : LoopSt).slots
        + faultedCount (⟨[localSlot []], 0, false, false, 1⟩ : LoopSt).slots
      ≤ (⟨[localSlot []], 0, false, false, 1⟩ : LoopSt).slots.length ∧
    (⟨[localSlot []], 0, false, false, 1⟩ : LoopSt).nActive
        + faultedCount (⟨[localSlot []], 0, false, false, 1⟩ : LoopSt).slots
      ≤ (⟨[localSlot []], 0, false, false, 1⟩ : LoopSt).slots.length :=
  (C1_admission_bound ⟨false, true⟩ [] [] (some ['1']) 0 (fun _ => true)
    [['x']] ⟨[⟨false, false, none⟩], [(1, ⟨true, 0⟩)]⟩).1
    ⟨[localSlot []], 0, false, false, 1⟩ (by decide)

/-- Witness for C4: in a run whose single remote slot `h` fails its
probe, that slot stays faulted and idle in every snapshot and no launch
ever targets it. -/
theorem C4_faulted_terminal_witness :
    (∀ x ∈ (runProgram ⟨false, false⟩ [] [] (some ['h']) 1 (fun _ => false)
              [] ⟨[], []⟩).snaps,
       ∃ t, x.slots.get? 0 = some t ∧ t.faulted = true ∧ t.cpid = none) ∧
    (∀ e ∈ (runProgram ⟨false, false⟩ [] [] (some ['h']) 1 (fun _ => false)
              [] ⟨[], []⟩).trace,
       ∀ line pre, e ≠ .launch 0 line pre) :=
  C4_faulted_terminal ⟨false, false⟩ [] [] (some ['h']) 1 (fun _ => false)
    [] ⟨[], []⟩ 0
    ⟨some ['h'], none, none, true, true, none, [['s', 's', 'h'], ['h']]⟩
    (by decide) rfl

/-- Witness for C3: a two-line run on one local slot whose first job
exits with status 7: no read follows the failing reap, the outcome is
failure exactly because a reap failed, and the drain leaves no busy
slot. -/
theorem C3_error_policy_witness :
    noReadAfter failingReap isRead
      (runProgram ⟨false, true⟩ [] [] (some ['1']) 0 (fun _ => true)
        [['x'], ['y']]
        ⟨[⟨false, false, none⟩, ⟨false, false, some (1, ⟨true, 7⟩)⟩],
         [(2, ⟨true, 0⟩)]⟩).trace = true ∧
    ((runProgram ⟨false, true⟩ [] [] (some ['1']) 0 (fun _ => true)
        [['x'], ['y']]
        ⟨[⟨false, false, none⟩, ⟨false, false, some (1, ⟨true, 7⟩)⟩],
         [(2, ⟨true, 0⟩)]⟩).outcome = .jobFailure ↔
     (runProgram ⟨false, true⟩ [] [] (some ['1']) 0 (fun _ => true)
        [['x'], ['y']]
        ⟨[⟨false, false, none⟩, ⟨false, false, some (1, ⟨true, 7⟩)⟩],
         [(2, ⟨true, 0⟩)]⟩).trace.any failingReap = true) ∧
    ((drainLoop [(1, ⟨true, 0⟩)]
        ⟨[⟨none, some 1, some ['x'], false, false, none, []⟩],
         1, false, false, 2⟩).final.nActive = 0 ∧
     busyCount (drainLoop [(1, ⟨true, 0⟩)]
        ⟨[⟨none, some 1, some ['x'], false, false, none, []⟩],
         1, false, false, 2⟩).final.slots = 0) :=
  ⟨(C3_error_policy ⟨false, true⟩ [] [] (some ['1']) 0 (fun _ => true)
      [['x'], ['y']]
      ⟨[⟨false, false, none⟩, ⟨false, false, some (1, ⟨true, 7⟩)⟩],
       [(2, ⟨true, 0⟩)]⟩).1 rfl,
   ((C3_error_policy ⟨false, true⟩ [] [] (some ['1']) 0 (fun _ => true)
      [['x'], ['y']]
      ⟨[⟨false, false, none⟩, ⟨false, false, some (1, ⟨true, 7⟩)⟩],
       [(2, ⟨true, 0⟩)]⟩).2.1 (Or.inr (by decide))).1,
   (C3_error_policy ⟨false, true⟩ [] [] (some ['1']) 0 (fun _ => true)
      [['x'], ['y']]
      ⟨[⟨false, false, none⟩, ⟨false, false, some (1, ⟨true, 7⟩)⟩],
       [(2, ⟨true, 0⟩)]⟩).2.2 [(1, ⟨true, 0⟩)]
      ⟨[⟨none, some 1, some ['x'], false, false, none, []⟩], 1, false, false, 2⟩
      (by decide) (by decide) (by decide)⟩

/-- Witness for C7: a run whose first checkpoint observes SIGINT reads
and launches nothing afterwards; an interrupted loop leaves the table
untouched; `really_interrupt` signals exactly the running child. -/
theorem C7_two_stage_cancellation_witness :
    noReadAfter isIntr (fun e => isRead e || isLaunch e)
      (runProgram ⟨false, true⟩ [] [] (some ['1']) 0 (fun _ => true) [['x']]
        ⟨[⟨true, false, none⟩], []⟩).trace = true ∧
    ((mainLoop false 1 0 [['y']]
        ⟨[localSlot []], 0, false, true, 1⟩ []).final.slots = [localSlot []] ∧
     ((mainLoop false 1 0 [['y']]
        ⟨[localSlot []], 0, false, true, 1⟩ []).trace.all
       (fun e => !(isRead e) && !(isLaunch e))) = true) ∧
    (5 ∈ really_interrupt [{ localSlot [] with cpid := some 5 }] ↔
       ∃ s ∈ [{ localSlot [] with cpid := some 5 }], s.cpid = some 5) :=
  ⟨(C7_two_stage_cancellation ⟨false, true⟩ [] [] (some ['1']) 0 (fun _ => true)
      [['x']] ⟨[⟨true, false, none⟩], []⟩).1,
   (C7_two_stage_cancellation ⟨false, true⟩ [] [] (some ['1']) 0 (fun _ => true)
      [['x']] ⟨[⟨true, false, none⟩], []⟩).2.1 false 1 0 [['y']]
      ⟨[localSlot []], 0, false, true, 1⟩ [] rfl,
   (C7_two_stage_cancellation ⟨false, true⟩ [] [] (some ['1']) 0 (fun _ => true)
      [['x']] ⟨[⟨true, false, none⟩], []⟩).2.2
      [{ localSlot [] with cpid := some 5 }] 5⟩
